import Mathlib

/-!
FSL engine: scope chain, argument resolution, command and function evaluation.

A shallow embedding of `src/engine` (package `engine` of apolunin/fsl).

* Go maps `map[string]V` are total lookups `String → Option V`; `m[k] = v` is
  `GoMap.set`, `delete(m, k)` is `GoMap.delete`, `make(map[string]V)` is `GoMap.empty`.
* A `*context` is never nil where it is dereferenced, so a context is either the root
  (`parent == nil`) or a child of another context.
* Methods that mutate contexts through pointers return the context chain they leave behind.
* `fmt.Errorf(format, operands...)` is kept as the format together with its operands.
* `strconv.ParseFloat` and the two float formats are taken as given functions (`GoLib`).
-/

namespace engine

/-! ## Go values -/

/-- Go `map[string]V`: the lookup `m[k]` with its `ok` flag. -/
abbrev GoMap (V : Type) := String → Option V

/-- Go `make(map[string]V)`. -/
def GoMap.empty {V : Type} : GoMap V := fun _ => none

/-- Go `m[k] = v`. -/
def GoMap.set {V : Type} (m : GoMap V) (k : String) (v : V) : GoMap V :=
  fun x => if x = k then some v else m x

/-- Go `delete(m, k)`. -/
def GoMap.delete {V : Type} (m : GoMap V) (k : String) : GoMap V :=
  fun x => if x = k then none else m x

/-- Go `error` values built by `fmt.Errorf` / `errors.New`: the format and its string
operands (in order); `wrapf` is an `Errorf` whose last operand (`%v`) is another error. -/
inductive GoError where
  | errorf (format : String) (operands : List String)
  | wrapf (format : String) (operands : List String) (err : GoError)
  deriving DecidableEq, Repr

/-- Library functions the engine calls, taken as given. -/
structure GoLib where
  /-- Go `strconv.ParseFloat(s, 64)`. -/
  parseFloat : String → Except GoError Float
  /-- Go `fmt.Sprintf("%f", x)`. -/
  sprintf_f : Float → String
  /-- Go `fmt.Sprintf("%.4f", x)`. -/
  sprintf_4f : Float → String

/-! ## argument.go -/

def undefinedValue : String := "undefined"

/-- Go `valueArg`: an argument without indirection. -/
structure valueArg where
  label : String
  val : String
  deriving DecidableEq, Repr

/-- Go `paramArg`: an argument with the `$` sigil. -/
structure paramArg where
  label : String
  ref : String
  deriving DecidableEq, Repr

/-- Go `refArg`: an argument with the `#` sigil. -/
structure refArg where
  label : String
  ref : String
  deriving DecidableEq, Repr

/-- Go interface `argument`, implemented by `*valueArg`, `*paramArg`, `*refArg`. -/
inductive argument where
  | valueArg (arg : valueArg)
  | paramArg (arg : paramArg)
  | refArg (arg : refArg)
  deriving DecidableEq, Repr

/-! ## command.go, function.go: data -/

/-- Go `command`. -/
structure command where
  cmd : String
  arguments : List argument
  deriving DecidableEq, Repr

structure customFunc where
  name : String
  commands : List command
  deriving DecidableEq, Repr

structure createFunc where
  name : String
  deriving DecidableEq, Repr

structure deleteFunc where
  name : String
  deriving DecidableEq, Repr

structure updateFunc where
  name : String
  deriving DecidableEq, Repr

structure printFunc where
  name : String
  deriving DecidableEq, Repr

structure binOp where
  name : String
  op : Float → Float → Float

/-- Go interface `function`, implemented by `*customFunc`, `*createFunc`, `*deleteFunc`,
`*updateFunc`, `*printFunc`, `*binOp`. -/
inductive function where
  | customFunc (f : customFunc)
  | createFunc (f : createFunc)
  | deleteFunc (f : deleteFunc)
  | updateFunc (f : updateFunc)
  | printFunc (f : printFunc)
  | binOp (f : binOp)

/-! ## context.go -/

/-- Go `context`: `root` is a context with `parent == nil`. The Go field `variables` is
`vars` here (the word is reserved). -/
inductive context where
  | root (functions : GoMap function) (vars : GoMap String)
  | child (parent : context) (functions : GoMap function) (vars : GoMap String)

namespace context

def parent : context → Option context
  | root _ _ => none
  | child p _ _ => some p

def functions : context → GoMap function
  | root fs _ => fs
  | child _ fs _ => fs

def vars : context → GoMap String
  | root _ vs => vs
  | child _ _ vs => vs

/-- Go `(*context).getVar`: `none` is the `("", false)` return. -/
def getVar : context → String → Bool → Option String
  | ctx, name, false => ctx.vars name
  | root _ vs, name, true => vs name
  | child p _ vs, name, true =>
    match vs name with
    | some val => some val
    | none => getVar p name true

/-- Go `(*context).setVar`. -/
def setVar : context → String → String → context
  | root fs vs, name, value => root fs (GoMap.set vs name value)
  | child p fs vs, name, value =>
    match vs name with
    | some _ => child p fs (GoMap.set vs name value)
    | none => child (setVar p name value) fs vs

/-- Go `(*context).updateVar`: the context left behind and the returned flag. -/
def updateVar : context → String → String → context × Bool
  | root fs vs, name, value =>
    match vs name with
    | some _ => (root fs (GoMap.set vs name value), true)
    | none => (root fs vs, false)
  | child p fs vs, name, value =>
    match vs name with
    | some _ => (child p fs (GoMap.set vs name value), true)
    | none => (child (updateVar p name value).1 fs vs, (updateVar p name value).2)

/-- Go `(*context).deleteVar`: the context left behind and the returned flag. -/
def deleteVar : context → String → context × Bool
  | root fs vs, name =>
    match vs name with
    | some _ => (root fs (GoMap.delete vs name), true)
    | none => (root fs vs, false)
  | child p fs vs, name =>
    match vs name with
    | some _ => (child p fs (GoMap.delete vs name), true)
    | none => (child (deleteVar p name).1 fs vs, (deleteVar p name).2)

/-- Go `(*context).getFunc`. -/
def getFunc : context → String → Bool → Option function
  | ctx, name, false => ctx.functions name
  | root fs _, name, true => fs name
  | child p fs _, name, true =>
    match fs name with
    | some f => some f
    | none => getFunc p name true

end context

/-- Go `newContext(parent)` for a non-nil parent. -/
def newContext (parent : context) : context :=
  context.child parent GoMap.empty GoMap.empty

/-- Go `newContext(nil)`. -/
def newRootContext : context :=
  context.root GoMap.empty GoMap.empty

/-! ## argument.go: parsing and resolution -/

/-- Go `strings.HasPrefix(s, p)`. -/
def strings.HasPrefix (s p : String) : Bool :=
  p.data.isPrefixOf s.data

/-- Go `s[1:]`, used only after `HasPrefix` found a one-byte sigil in front. -/
def sliceFrom1 (s : String) : String :=
  String.mk (s.data.drop 1)

/-- Go `parseArg`. -/
def parseArg (name value : String) : Except GoError argument :=
  if strings.HasPrefix value "$" then
    .ok (.paramArg { label := name, ref := sliceFrom1 value })
  else if strings.HasPrefix value "#" then
    .ok (.refArg { label := name, ref := sliceFrom1 value })
  else
    .ok (.valueArg { label := name, val := value })

def valueArg.name (arg : valueArg) : String :=
  arg.label

def valueArg.value (arg : valueArg) (_ : context) : String :=
  arg.val

def paramArg.name (arg : paramArg) : String :=
  arg.label

def paramArg.value (arg : paramArg) (ctx : context) : String :=
  match ctx.getVar arg.ref false with
  | some val => val
  | none => undefinedValue

def refArg.name (arg : refArg) : String :=
  arg.label

def refArg.value (arg : refArg) (ctx : context) : String :=
  match ctx.getVar arg.ref true with
  | some val => val
  | none => undefinedValue

/-- Interface method `argument.name()`. -/
def argument.name : argument → String
  | .valueArg arg => arg.name
  | .paramArg arg => arg.name
  | .refArg arg => arg.name

/-- Interface method `argument.value(ctx)`. -/
def argument.value : argument → context → String
  | .valueArg arg, ctx => arg.value ctx
  | .paramArg arg, ctx => arg.value ctx
  | .refArg arg, ctx => arg.value ctx

/-! ## function.go: built-in functions -/

def funcCreate : String := "create"
def funcDelete : String := "delete"
def funcUpdate : String := "update"
def funcPrint : String := "print"
def funcInit : String := "init"
def funcAdd : String := "add"
def funcSub : String := "sub"
def funcMul : String := "mul"
def funcDiv : String := "div"

def attrID : String := "id"
def attrOp1 : String := "operand1"
def attrOp2 : String := "operand2"
def attrVal : String := "value"

/-- What a call of `eval(ctx) error` leaves behind: the returned error (`none` is `nil`),
the context chain of `ctx` after the call, and the lines the call wrote to standard output. -/
structure Result where
  err : Option GoError
  ctx : context
  out : List String

/-- Go `(*binOp).eval`. -/
def binOp.eval (lib : GoLib) (f : binOp) (ctx : context) : Result :=
  match ctx.getVar attrID false with
  | none => ⟨some (.errorf "cannot evaluate %q function: %q is missing" [f.name, attrID]), ctx, []⟩
  | some id =>
    match ctx.getVar attrOp1 false with
    | none =>
      ⟨some (.errorf "cannot evaluate %q function: %q is missing" [f.name, attrOp1]), ctx, []⟩
    | some op1 =>
      match ctx.getVar attrOp2 false with
      | none =>
        ⟨some (.errorf "cannot evaluate %q function: %q is missing" [f.name, attrOp2]), ctx, []⟩
      | some op2 =>
        match lib.parseFloat op1 with
        | .error err =>
          ⟨some (.wrapf "cannot convert %q = %q to float: %v" [attrOp1, op1] err), ctx, []⟩
        | .ok left =>
          match lib.parseFloat op2 with
          | .error err =>
            ⟨some (.wrapf "cannot convert %q = %q to float: %v" [attrOp2, op2] err), ctx, []⟩
          | .ok right =>
            ⟨none, ctx.setVar id (lib.sprintf_f (f.op left right)), []⟩

/-- Go `(*createFunc).eval`. -/
def createFunc.eval (f : createFunc) (ctx : context) : Result :=
  match ctx.getVar attrID false with
  | none =>
    ⟨some (.errorf "failed to evaluate function %q: missing %q argument" [f.name, attrID]), ctx, []⟩
  | some id =>
    match ctx.getVar attrVal false with
    | none =>
      ⟨some (.errorf "failed to evaluate function %q: missing %q argument" [f.name, attrVal]),
        ctx, []⟩
    | some val => ⟨none, ctx.setVar id val, []⟩

/-- Go `(*deleteFunc).eval`. -/
def deleteFunc.eval (f : deleteFunc) (ctx : context) : Result :=
  match ctx.getVar attrID false with
  | none =>
    ⟨some (.errorf "failed to evaluate function %q: missing %q argument" [f.name, attrID]), ctx, []⟩
  | some id =>
    if (ctx.deleteVar id).2 then
      ⟨none, (ctx.deleteVar id).1, []⟩
    else
      ⟨some (.errorf "failed to evaluate function %q: delete failed, variable %q is undefined"
        [f.name, id]), (ctx.deleteVar id).1, []⟩

/-- Go `(*updateFunc).eval`. -/
def updateFunc.eval (f : updateFunc) (ctx : context) : Result :=
  match ctx.getVar attrID false with
  | none =>
    ⟨some (.errorf "failed to evaluate function %q: missing %q argument" [f.name, attrID]), ctx, []⟩
  | some id =>
    match ctx.getVar attrVal false with
    | none =>
      ⟨some (.errorf "failed to evaluate function %q: missing %q argument" [f.name, attrVal]),
        ctx, []⟩
    | some val =>
      if (ctx.updateVar id val).2 then
        ⟨none, (ctx.updateVar id val).1, []⟩
      else
        ⟨some (.errorf "failed to evaluate function %q: update failed, variable %q is undefined"
          [f.name, id]), (ctx.updateVar id val).1, []⟩

/-- Go `(*printFunc).eval`: `Printf("%.4f\n", num)` and `Println(val)` each write one line. -/
def printFunc.eval (lib : GoLib) (f : printFunc) (ctx : context) : Result :=
  match ctx.getVar attrVal false with
  | none =>
    ⟨some (.errorf "failed to evaluate function %q: missing %q argument" [f.name, attrVal]),
      ctx, []⟩
  | some val =>
    match lib.parseFloat val with
    | .ok num => ⟨none, ctx, [lib.sprintf_4f num]⟩
    | .error _ => ⟨none, ctx, [val]⟩

/-- Go `addBuiltIns`. -/
def addBuiltIns (functions : GoMap function) : GoMap function :=
  let functions := GoMap.set functions funcCreate (.createFunc { name := funcCreate })
  let functions := GoMap.set functions funcDelete (.deleteFunc { name := funcDelete })
  let functions := GoMap.set functions funcUpdate (.updateFunc { name := funcUpdate })
  let functions := GoMap.set functions funcPrint (.printFunc { name := funcPrint })
  let functions := GoMap.set functions "add" (.binOp { name := funcAdd, op := fun a b => a + b })
  let functions := GoMap.set functions "sub" (.binOp { name := funcSub, op := fun a b => a - b })
  let functions := GoMap.set functions "mul" (.binOp { name := funcMul, op := fun a b => a * b })
  GoMap.set functions "div" (.binOp { name := funcDiv, op := fun a b => a / b })

/-! ## command.go and function.go: evaluation

`command.eval` calls `function.eval`, whose `customFunc` case calls `command.eval` again, and a
script may recurse for ever. The recursion is cut by `fuel`, the number of nested custom
function calls still allowed; `none` is the out-of-fuel result. The two bodies are written once,
over the evaluator they call (`command.evalWith`, `customFunc.evalWith`). -/

/-- The assignment `ctx.variables[name] = value` on the context's own map. -/
def context.setOwnVar : context → String → String → context
  | .root fs vs, name, value => .root fs (GoMap.set vs name value)
  | .child p fs vs, name, value => .child p fs (GoMap.set vs name value)

/-- The caller's chain once the callee's frame is dropped: a callee evaluated in
`newContext(ctx)` leaves a chain whose parent is the caller's. -/
def context.caller (ctx : context) : context :=
  match ctx.parent with
  | some p => p
  | none => ctx

/-- Go `(*command).eval`, with `f.eval` given as `call`. -/
def command.evalWith (call : function → context → Option Result) (c : command) (ctx : context) :
    Option Result :=
  match ctx.getFunc c.cmd true with
  | none =>
    some ⟨some (.errorf "failed to evaluate command: function %q is not defined" [c.cmd]), ctx, []⟩
  | some f =>
    let newCtx := c.arguments.foldl
      (fun newCtx arg => newCtx.setOwnVar arg.name (arg.value ctx)) (newContext ctx)
    match call f newCtx with
    | none => none
    | some r => some ⟨r.err, r.ctx.caller, r.out⟩

/-- Go `(*customFunc).eval`, the loop over the remaining commands, with `command.eval` given
as `evalCmd`. -/
def customFunc.evalWith (evalCmd : command → context → Option Result) (name : String) :
    List command → context → Option Result
  | [], ctx => some ⟨none, ctx, []⟩
  | command :: rest, ctx =>
    match evalCmd command ctx with
    | none => none
    | some r =>
      match r.err with
      | some err =>
        some ⟨some (.wrapf "failed to execute function %q: %v" [name] err), r.ctx, r.out⟩
      | none =>
        match customFunc.evalWith evalCmd name rest r.ctx with
        | none => none
        | some r2 => some ⟨r2.err, r2.ctx, r.out ++ r2.out⟩

/-- Interface method `function.eval(ctx)`. -/
def function.eval (lib : GoLib) : Nat → function → context → Option Result
  | _, .createFunc f, ctx => some (f.eval ctx)
  | _, .deleteFunc f, ctx => some (f.eval ctx)
  | _, .updateFunc f, ctx => some (f.eval ctx)
  | _, .printFunc f, ctx => some (f.eval lib ctx)
  | _, .binOp f, ctx => some (f.eval lib ctx)
  | 0, .customFunc _, _ => none
  | fuel + 1, .customFunc f, ctx =>
    customFunc.evalWith (command.evalWith (function.eval lib fuel)) f.name f.commands ctx

/-- Go `(*command).eval`. -/
def command.eval (lib : GoLib) (fuel : Nat) (c : command) (ctx : context) : Option Result :=
  command.evalWith (function.eval lib fuel) c ctx

/-- Go `(*customFunc).eval`. -/
def customFunc.eval (lib : GoLib) (fuel : Nat) (f : customFunc) (ctx : context) : Option Result :=
  function.eval lib fuel (.customFunc f) ctx

/-! ## script.go, command.go, function.go: parsing

`parseScript` reads an `io.Reader` and decodes it with `json.Unmarshal`; both steps are outside
the engine. The parsers below start from the decoded value. A decoded object (`map[string]any`)
is the list of its entries in the order the `range` loop visits them. `fmt.Sprintf("%v", v)` on a
decoded value is a given function `fmtV`. -/

/-- Go `any` as `json.Unmarshal` produces it: `nil`, `bool`, `float64`, `string`, `[]any`,
`map[string]any`. -/
inductive JSONValue where
  | null
  | bool (b : Bool)
  | number (x : Float)
  | string (s : String)
  | array (elems : List JSONValue)
  | object (entries : List (String × JSONValue))

/-- The loop of `parseCommand` over the entries of the command object. -/
def parseCommandArgs (fmtV : JSONValue → String) :
    List (String × JSONValue) → Except GoError (List argument)
  | [] => .ok []
  | (k, v) :: rest =>
    if k = "cmd" then
      parseCommandArgs fmtV rest
    else
      match parseArg k (fmtV v) with
      | .error err => .error (.wrapf "cannot parse arg %q: %v" [k] err)
      | .ok arg =>
        match parseCommandArgs fmtV rest with
        | .error err => .error err
        | .ok args => .ok (arg :: args)

/-- Go `parseCommand`. -/
def parseCommand (fmtV : JSONValue → String) (data : List (String × JSONValue)) :
    Except GoError command :=
  match data.lookup "cmd" with
  | none => .error (.errorf "cannot parse command: 'cmd' attribute is missing" [])
  | some c =>
    match parseCommandArgs fmtV data with
    | .error err => .error err
    | .ok args =>
      let cmd := fmtV c
      let cmd := if strings.HasPrefix cmd "#" then sliceFrom1 cmd else cmd
      .ok { cmd := cmd, arguments := args }

/-- The loop of `parseFunction` over the entries of the function's list. -/
def parseFunctionCommands (fmtV : JSONValue → String) (name : String) :
    List JSONValue → Except GoError (List command)
  | [] => .ok []
  | .object val :: rest =>
    match parseCommand fmtV val with
    | .error err => .error (.wrapf "cannot parse function %q: %v" [name] err)
    | .ok command =>
      match parseFunctionCommands fmtV name rest with
      | .error err => .error err
      | .ok commands => .ok (command :: commands)
  | val :: _ => .error (.errorf "cannot parse function %q: invalid command: %v" [name, fmtV val])

/-- Go `parseFunction`. -/
def parseFunction (fmtV : JSONValue → String) (name : String) (data : List JSONValue) :
    Except GoError function :=
  match parseFunctionCommands fmtV name data with
  | .error err => .error err
  | .ok commands => .ok (.customFunc { name := name, commands := commands })

/-- Go `script`. The Go field `variables` is `vars` here. -/
structure script where
  functions : GoMap function
  vars : GoMap String

/-- The loop of `parseScript` over the entries of the decoded object, followed by the check
for `init`. -/
def parseScriptEntries (lib : GoLib) (fmtV : JSONValue → String) :
    List (String × JSONValue) → GoMap function → GoMap String → Except GoError script
  | [], functions, vars =>
    match functions funcInit with
    | none => .error (.errorf "%q function not found" [funcInit])
    | some _ => .ok { functions := functions, vars := vars }
  | (key, .array value) :: rest, functions, vars =>
    match parseFunction fmtV key value with
    | .error err => .error (.wrapf "cannot parse script: %v" [] err)
    | .ok f => parseScriptEntries lib fmtV rest (GoMap.set functions key f) vars
  | (key, .number value) :: rest, functions, vars =>
    parseScriptEntries lib fmtV rest functions (GoMap.set vars key (fmtV (.number value)))
  | (key, .string value) :: rest, functions, vars =>
    match lib.parseFloat value with
    | .error _ =>
      .error (.errorf "variable %q = %q is not a floating-point number" [key, value])
    | .ok _ => parseScriptEntries lib fmtV rest functions (GoMap.set vars key value)
  | (_, _) :: rest, functions, vars =>
    parseScriptEntries lib fmtV rest functions vars

/-- Go `parseScript`, from the decoded object on. -/
def parseScript (lib : GoLib) (fmtV : JSONValue → String) (data : List (String × JSONValue)) :
    Except GoError script :=
  parseScriptEntries lib fmtV data (addBuiltIns GoMap.empty) GoMap.empty

/-! ## script.go and engine.go: evaluation -/

/-- Go `for key, value := range src { dst[key] = value }`. -/
def GoMap.copyInto {V : Type} (src dst : GoMap V) : GoMap V :=
  fun k =>
    match src k with
    | some value => some value
    | none => dst k

/-- The two copying loops of `(*script).eval`, which write into the context's own maps. -/
def script.merge (s : script) : context → context
  | .root fs vs => .root (GoMap.copyInto s.functions fs) (GoMap.copyInto s.vars vs)
  | .child p fs vs => .child p (GoMap.copyInto s.functions fs) (GoMap.copyInto s.vars vs)

/-- What a call that may not return comes to: it returned (with an error or `nil`), the fuel
ran out, or it called a method on a `nil` interface value (which panics). -/
inductive Outcome where
  | returned (r : Result)
  | outOfFuel
  | nilCall

/-- Go `(*script).eval`. -/
def script.eval (lib : GoLib) (fuel : Nat) (s : script) (ctx : context) : Outcome :=
  match s.functions funcInit with
  | none => .nilCall
  | some f =>
    match function.eval lib fuel f (s.merge ctx) with
    | none => .outOfFuel
    | some r => .returned r

/-- The function literal in the loop of `Run`, once the file is opened and decoded: parse the
script, then evaluate it. -/
def runScript (lib : GoLib) (fmtV : JSONValue → String) (fuel : Nat)
    (data : List (String × JSONValue)) (ctx : context) : Outcome :=
  match parseScript lib fmtV data with
  | .error err => .returned ⟨some err, ctx, []⟩
  | .ok s => s.eval lib fuel ctx

/-- The loop of Go `Run` over the script files, each given by its name and decoded content. -/
def runScripts (lib : GoLib) (fmtV : JSONValue → String) (fuel : Nat) :
    List (String × List (String × JSONValue)) → context → List String → Outcome
  | [], ctx, out => .returned ⟨none, ctx, out⟩
  | (f, data) :: rest, ctx, out =>
    match runScript lib fmtV fuel data ctx with
    | .outOfFuel => .outOfFuel
    | .nilCall => .nilCall
    | .returned r =>
      match r.err with
      | some err =>
        .returned ⟨some (.wrapf "aborting execution: failed to run script %q: %v" [f] err),
          r.ctx, out ++ r.out⟩
      | none => runScripts lib fmtV fuel rest r.ctx (out ++ r.out)

/-- Go `Run`. -/
def Run (lib : GoLib) (fmtV : JSONValue → String) (fuel : Nat)
    (scriptFiles : List (String × List (String × JSONValue))) : Outcome :=
  runScripts lib fmtV fuel scriptFiles newRootContext []

/-! ## Vocabulary of the statements -/

/-- One frame of a chain: the two maps a context owns. -/
structure Frame where
  functions : GoMap function
  vars : GoMap String

/-- The frames of a chain, from the starting frame (index 0) to the root (last). -/
def context.frames : context → List Frame
  | .root fs vs => [⟨fs, vs⟩]
  | .child p fs vs => ⟨fs, vs⟩ :: p.frames

/-- The frame with `name` bound to `value`. -/
def Frame.setVar (name value : String) (fr : Frame) : Frame :=
  ⟨fr.functions, GoMap.set fr.vars name value⟩

/-- The frame with the binding of `name` removed. -/
def Frame.deleteVar (name : String) (fr : Frame) : Frame :=
  ⟨fr.functions, GoMap.delete fr.vars name⟩

/-- The variable map `{ arg.name -> arg.value(ctx) }` over a command's arguments, the last
occurrence of a name winning. -/
def argBindings (arguments : List argument) (ctx : context) : GoMap String :=
  fun k => (arguments.reverse.find? (fun arg => arg.name = k)).map (fun arg => arg.value ctx)

/-- The attributes each built-in requires (spec 4.4); a custom function requires none. -/
def requiredAttrs : function → List String
  | .customFunc _ => []
  | .createFunc _ => [attrID, attrVal]
  | .deleteFunc _ => [attrID]
  | .updateFunc _ => [attrID, attrVal]
  | .printFunc _ => [attrVal]
  | .binOp _ => [attrID, attrOp1, attrOp2]

/-- Whether an error is one of the two "attribute is missing" reports of the built-ins, naming
one of the four attributes. -/
def GoError.isMissingArgument : GoError → Bool
  | .errorf format [_, attr] =>
    (format == "failed to evaluate function %q: missing %q argument" ||
      format == "cannot evaluate %q function: %q is missing") &&
    [attrID, attrVal, attrOp1, attrOp2].contains attr
  | _ => false

/-- The commands `cmds`, evaluated by `ev` one after the other, each on the chain the previous
one left, all return without error; `ctx2` is the chain after the last and `out` what they
printed, in order. -/
inductive RunsOk (ev : command → context → Option Result) :
    List command → context → context → List String → Prop where
  | nil (ctx : context) : RunsOk ev [] ctx ctx []
  | cons (c : command) (rest : List command) (ctx ctx1 ctx2 : context) (out1 out2 : List String) :
      ev c ctx = some ⟨none, ctx1, out1⟩ → RunsOk ev rest ctx1 ctx2 out2 →
      RunsOk ev (c :: rest) ctx ctx2 (out1 ++ out2)

/-- Whether the frame binds the function name `name`. -/
def Frame.bindsFunc (name : String) (fr : Frame) : Bool :=
  (fr.functions name).isSome

/-- The function maps of the frames of a chain, from the starting frame to the root. -/
def context.funcMaps (ctx : context) : List (GoMap function) :=
  ctx.frames.map Frame.functions

/-- An entry of a function's list that is an object containing a `cmd` key. -/
def JSONValue.isCommandObject : JSONValue → Prop
  | .object entries => ∃ c, ("cmd", c) ∈ entries
  | _ => False

/-- The names `addBuiltIns` binds. -/
def builtInNames : List String :=
  [funcCreate, funcDelete, funcUpdate, funcPrint, "add", "sub", "mul", "div"]

/-- The result of a call that returned. -/
def Outcome.result? : Outcome → Option Result
  | .returned r => some r
  | .outOfFuel => none
  | .nilCall => none

/-- The calls made in the course of an evaluation: `Invoked lib fuel f ctx g ctx2` says that
while `f` is evaluated on the chain `ctx` with `fuel`, the function `g` is evaluated on the
chain `ctx2`. Either this is the evaluation of `f` itself, or `f` is a custom function, the
commands `pre` before its command `k` ran without error and left `ctx1`, `k` names the
function `h` there, and the call is made while `h` is evaluated on the frame `command.eval`
builds for `k` over `ctx1`. -/
inductive Invoked (lib : GoLib) : Nat → function → context → function → context → Prop where
  | self (fuel : Nat) (f : function) (ctx : context) : Invoked lib fuel f ctx f ctx
  | call (fuel : Nat) (f : customFunc) (ctx : context) (pre : List command) (k : command)
      (post : List command) (ctx1 : context) (out1 : List String) (h g : function)
      (ctx2 : context) :
      f.commands = pre ++ k :: post →
      RunsOk (command.eval lib fuel) pre ctx ctx1 out1 →
      ctx1.getFunc k.cmd true = some h →
      Invoked lib fuel h (context.child ctx1 GoMap.empty (argBindings k.arguments ctx1)) g ctx2 →
      Invoked lib (fuel + 1) (.customFunc f) ctx g ctx2

/-- Whether the frame binds `name`. -/
def Frame.binds (name : String) (fr : Frame) : Bool :=
  (fr.vars name).isSome

/-! ## Concrete chains used as test inputs -/

/-- A root frame holding the built-in functions and no variables. -/
def rootBuiltIns : context :=
  .root (addBuiltIns GoMap.empty) GoMap.empty

/-- A two-frame chain: the root binds `x` to `1`, the starting frame binds nothing. -/
def chainX : context :=
  .child (.root (addBuiltIns GoMap.empty) (GoMap.set GoMap.empty "x" "1")) GoMap.empty GoMap.empty

/-- A three-frame chain: the root and the middle frame both bind `x`. -/
def chainXX : context :=
  .child (.child (.root (addBuiltIns GoMap.empty) (GoMap.set GoMap.empty "x" "1"))
    GoMap.empty (GoMap.set GoMap.empty "x" "2")) GoMap.empty GoMap.empty

/-- A stand-in for the given library functions on test inputs: it parses the numerals `3` and
`4` only. -/
def testLib : GoLib where
  parseFloat := fun s =>
    if s = "3" then .ok 3
    else if s = "4" then .ok 4
    else .error (.errorf "strconv.ParseFloat: parsing %q: invalid syntax" [s])
  sprintf_f := fun x => toString x
  sprintf_4f := fun x => toString x

/-- The command `{"cmd": "create", "id": n, "value": v}` with literal arguments. -/
def createCmd (n v : String) : command :=
  ⟨"create", [.valueArg ⟨"id", n⟩, .valueArg ⟨"value", v⟩]⟩

/-- The command `{"cmd": "delete", "id": n}` with a literal argument. -/
def deleteCmd (n : String) : command :=
  ⟨"delete", [.valueArg ⟨"id", n⟩]⟩

/-- A `print` command that repeats the name `value` and refers to it through `$` and `#`. -/
def printCmdRepeated : command :=
  ⟨"print", [.valueArg ⟨"value", "1"⟩, .paramArg ⟨"x", "value"⟩, .refArg ⟨"y", "value"⟩,
    .valueArg ⟨"value", "2"⟩]⟩

/-- A two-frame chain whose root binds every attribute name and whose starting frame binds
nothing. -/
def chainAttrs : context :=
  .child (.root (addBuiltIns GoMap.empty)
    (GoMap.set (GoMap.set (GoMap.set (GoMap.set GoMap.empty "id" "x") "value" "3")
      "operand1" "3") "operand2" "4")) GoMap.empty GoMap.empty

/-- A stand-in for `fmt.Sprintf("%v", v)` on test inputs: a string prints as itself. -/
def testFmtV : JSONValue → String
  | .string s => s
  | .number x => toString x
  | _ => "<nil>"

/-- The decoded script `{"init": [{"cmd": "create", "id": "x", "value": "5"}]}`. -/
def dataCreateX : List (String × JSONValue) :=
  [("init", .array [.object [("cmd", .string "create"), ("id", .string "x"),
    ("value", .string "5")]])]

/-- The decoded script `{"init": 5}`. -/
def dataInitNumber : List (String × JSONValue) :=
  [("init", .number 5)]

/-- The decoded script `{"init": []}`. -/
def dataInitEmpty : List (String × JSONValue) :=
  [("init", .array [])]

/-- The decoded script `{"init": [{"cmd": "init"}]}`. -/
def dataInitCallsInit : List (String × JSONValue) :=
  [("init", .array [.object [("cmd", .string "init")]])]

/-- A root frame in which `create` names a user-defined function (as after a script
`{"create": [], "init": []}`). -/
def rootCustomCreate : context :=
  .root (GoMap.set (GoMap.set (addBuiltIns GoMap.empty) "create" (.customFunc ⟨"create", []⟩))
    "init" (.customFunc ⟨"init", []⟩)) GoMap.empty

/-- A root frame as a first script `{"x": "3", "init": []}` leaves it. -/
def rootAfterFirst : context :=
  .root (GoMap.set (addBuiltIns GoMap.empty) "init" (.customFunc ⟨"init", []⟩))
    (GoMap.set GoMap.empty "x" "3")

/-- The script parsed from `{"x": "4", "init": [{"cmd": "create", "id": "y", "value": "#x"}]}`. -/
def scriptSecond : script :=
  ⟨GoMap.set (addBuiltIns GoMap.empty) "init"
      (.customFunc ⟨"init", [⟨"create", [.valueArg ⟨"id", "y"⟩, .refArg ⟨"value", "x"⟩]⟩]⟩),
    GoMap.set GoMap.empty "x" "4"⟩

/-- The decoded script `{"x": "3", "init": []}`. -/
def dataFirst : List (String × JSONValue) :=
  [("x", .string "3"), ("init", .array [])]

/-- The decoded script `{"x": "4", "init": [{"cmd": "create", "id": "y", "value": "#x"}]}`. -/
def dataSecond : List (String × JSONValue) :=
  [("x", .string "4"), ("init", .array [.object [("cmd", .string "create"),
    ("id", .string "y"), ("value", .string "#x")]])]

/-- A root frame that binds the built-ins and a user-defined function `helper`. -/
def rootHelper : context :=
  .root (GoMap.set (addBuiltIns GoMap.empty) "helper" (.customFunc ⟨"helper", []⟩)) GoMap.empty

/-- The script parsed from `{"init": []}`. -/
def scriptInitEmpty : script :=
  ⟨GoMap.set (addBuiltIns GoMap.empty) "init" (.customFunc ⟨"init", []⟩), GoMap.empty⟩

/-- The function parsed from `"init": [{"cmd": "init"}]`. -/
def initCallsInit : function :=
  .customFunc ⟨"init", [⟨"init", []⟩]⟩

/-- The script parsed from `{"init": [{"cmd": "init"}]}`. -/
def scriptInitCallsInit : script :=
  ⟨GoMap.set (addBuiltIns GoMap.empty) "init" initCallsInit, GoMap.empty⟩

/-- A frame as the command `add id=y operand1=3 operand2=4` builds it over `rootBuiltIns`. -/
def frameAdd34 : context :=
  .child rootBuiltIns GoMap.empty
    (GoMap.set (GoMap.set (GoMap.set GoMap.empty "id" "y") "operand1" "3") "operand2" "4")

/-- A frame as the command `add id=y operand1=3 operand2=four` builds it over `rootBuiltIns`. -/
def frameAdd3Bad : context :=
  .child rootBuiltIns GoMap.empty
    (GoMap.set (GoMap.set (GoMap.set GoMap.empty "id" "y") "operand1" "3") "operand2" "four")

/-- A custom function whose commands call the user-defined `helper`, which calls `create`. -/
def initCallsHelper : function :=
  .customFunc ⟨"init", [createCmd "x" "1", ⟨"helper", []⟩]⟩

/-- The function `helper` of `rootHelperCreate`. -/
def helperCreates : function :=
  .customFunc ⟨"helper", [createCmd "y" "2"]⟩

/-- A root frame with the built-ins and `helper`. -/
def rootHelperCreate : context :=
  .root (GoMap.set (addBuiltIns GoMap.empty) "helper" helperCreates) GoMap.empty

/-- The frame `init` of `initCallsHelper` builds for its call of `helper`, after `create x`. -/
def helperFrame : context :=
  .child (rootHelperCreate.setVar "x" "1") GoMap.empty GoMap.empty

/-- The frame `helper` builds over `helperFrame` for its call of `create`. -/
def createFrame : context :=
  .child helperFrame GoMap.empty (argBindings (createCmd "y" "2").arguments helperFrame)

/-! ## Shared lemmas -/

theorem frames_length_pos (ctx : context) : 0 < ctx.frames.length := by
  cases ctx <;> simp [context.frames]

/-- A chain is determined by its frames. -/
theorem frames_injective : ∀ (a b : context), a.frames = b.frames → a = b
  | .root _ _, .root _ _, h => by
    simp only [context.frames, List.cons.injEq, Frame.mk.injEq, and_true] at h
    rw [h.1, h.2]
  | .root _ _, .child p _ _, h => by
    have hp := frames_length_pos p
    simp only [context.frames, List.cons.injEq] at h
    rw [← h.2] at hp
    simp at hp
  | .child p _ _, .root _ _, h => by
    have hp := frames_length_pos p
    simp only [context.frames, List.cons.injEq] at h
    rw [h.2] at hp
    simp at hp
  | .child p _ _, .child q _ _, h => by
    simp only [context.frames, List.cons.injEq, Frame.mk.injEq] at h
    rw [frames_injective p q h.2, h.1.1, h.1.2]

theorem getVar_true_root (fs : GoMap function) (vs : GoMap String) (n : String) :
    (context.root fs vs).getVar n true = vs n := by
  simp [context.getVar]

theorem getVar_true_child (p : context) (fs : GoMap function) (vs : GoMap String) (n : String) :
    (context.child p fs vs).getVar n true = (vs n).orElse (fun _ => p.getVar n true) := by
  cases h : vs n <;> simp [context.getVar, h]

theorem getVar_false (ctx : context) (n : String) : ctx.getVar n false = ctx.vars n := by
  cases ctx <;> simp [context.getVar]

theorem binds_false_iff (n : String) (fr : Frame) : fr.binds n = false ↔ fr.vars n = none := by
  unfold Frame.binds
  cases fr.vars n <;> simp

theorem binds_true_iff (n : String) (fr : Frame) :
    fr.binds n = true ↔ ∃ w, fr.vars n = some w := by
  unfold Frame.binds
  cases fr.vars n <;> simp

theorem getVar_true_eq_none_iff (c : context) (n : String) :
    c.getVar n true = none ↔ ∀ fr ∈ c.frames, fr.binds n = false := by
  induction c with
  | root fs vs => simp [getVar_true_root, context.frames, binds_false_iff]
  | child p fs vs ih =>
    rw [getVar_true_child]
    cases h : vs n with
    | none => simpa [context.frames, binds_false_iff, h] using ih
    | some w => simp [context.frames, binds_false_iff, h]

/-! ## C1: setVar -/

/-- C1. `setVar` (assignVariable) started at any frame: when frame `i` is the nearest frame that
binds `n` (it binds `n` and no frame before it does), the chain afterwards is the chain before
with frame `i` alone replaced by itself with `n` bound to `v`; in that case a starting frame that
did not bind `n` still does not. When no frame binds `n`, the chain afterwards is the chain
before with the root-most frame alone replaced by itself with `n` bound to `v`. -/
theorem setVar_nearest_or_root (ctx : context) (n v : String) :
    (∀ (i : Nat) (fr : Frame), ctx.frames[i]? = some fr → fr.binds n = true →
        (∀ (j : Nat) (fj : Frame), j < i → ctx.frames[j]? = some fj → fj.binds n = false) →
        (ctx.setVar n v).frames = ctx.frames.modify (Frame.setVar n v) i ∧
        (ctx.vars n = none → 0 < i ∧ (ctx.setVar n v).vars n = none)) ∧
    ((∀ fr ∈ ctx.frames, fr.binds n = false) →
        (ctx.setVar n v).frames =
          ctx.frames.modify (Frame.setVar n v) (ctx.frames.length - 1)) := by
  induction ctx with
  | root fs vs =>
    refine ⟨?_, ?_⟩
    · intro i fr hi hb _
      cases i with
      | zero =>
        simp only [context.frames, List.getElem?_cons_zero, Option.some.injEq] at hi
        subst hi
        refine ⟨by simp [context.setVar, context.frames, Frame.setVar], ?_⟩
        intro h0
        simp [Frame.binds, context.vars] at hb h0
        simp [h0] at hb
      | succ k => simp [context.frames] at hi
    · intro _
      simp [context.setVar, context.frames, Frame.setVar]
  | child p fs vs ih =>
    refine ⟨?_, ?_⟩
    · intro i fr hi hb hmin
      cases i with
      | zero =>
        simp only [context.frames, List.getElem?_cons_zero, Option.some.injEq] at hi
        subst hi
        rw [binds_true_iff] at hb
        obtain ⟨w, hw⟩ := hb
        simp only at hw
        refine ⟨by simp [context.setVar, context.frames, Frame.setVar, hw], ?_⟩
        intro h0
        simp [context.vars, hw] at h0
      | succ k =>
        have h0 := hmin 0 ⟨fs, vs⟩ (Nat.succ_pos k) (by simp [context.frames])
        rw [binds_false_iff] at h0
        simp only at h0
        simp only [context.frames, List.getElem?_cons_succ] at hi
        have hk := (ih.1 k fr hi hb (fun j fj hj hfj =>
          hmin (j + 1) fj (Nat.succ_lt_succ hj) (by simpa [context.frames] using hfj))).1
        refine ⟨by simp [context.setVar, context.frames, h0, hk], ?_⟩
        intro _
        exact ⟨Nat.succ_pos k, by simp [context.setVar, h0, context.vars]⟩
    · intro hall
      have h0 := hall ⟨fs, vs⟩ (by simp [context.frames])
      rw [binds_false_iff] at h0
      simp only at h0
      have hp := ih.2 (fun fr hfr => hall fr (by simp [context.frames, hfr]))
      have hlen := frames_length_pos p
      have hidx : (context.child p fs vs).frames.length - 1 = (p.frames.length - 1) + 1 := by
        simp only [context.frames, List.length_cons]
        omega
      rw [hidx]
      simp [context.setVar, context.frames, h0, hp]

/-- C1 at `chainX`: `x` is bound only in the root (frame 1), `y` nowhere. -/
theorem setVar_nearest_or_root_witness :
    (chainX.setVar "x" "5").frames = chainX.frames.modify (Frame.setVar "x" "5") 1 ∧
    (chainX.setVar "x" "5").vars "x" = none ∧
    (chainX.setVar "y" "5").frames = chainX.frames.modify (Frame.setVar "y" "5") 1 :=
  have h := (setVar_nearest_or_root chainX "x" "5").1 1
    ⟨addBuiltIns GoMap.empty, GoMap.set GoMap.empty "x" "1"⟩ rfl (by decide)
    (fun j fj hj hfj => by
      obtain rfl : j = 0 := by omega
      simp only [chainX, context.frames, List.getElem?_cons_zero, Option.some.injEq] at hfj
      subst hfj
      decide)
  ⟨h.1, (h.2 (by decide)).2,
    (setVar_nearest_or_root chainX "y" "5").2 (fun fr hfr => by
      simp only [chainX, context.frames, List.mem_cons, List.mem_singleton, List.mem_nil_iff,
        or_false] at hfr
      rcases hfr with rfl | rfl <;> decide)⟩

/-! ## C2: getVar -/

/-- C2. `getVar n true` returns the binding of the nearest frame that binds `n` and is
not-found exactly when no frame of the chain binds `n`; `getVar n false` returns the starting
frame's own binding (or not-found); for a name bound nowhere both modes are not-found. -/
theorem getVar_first_binding (ctx : context) (n : String) :
    (∀ (i : Nat) (fr : Frame), ctx.frames[i]? = some fr → fr.binds n = true →
        (∀ (j : Nat) (fj : Frame), j < i → ctx.frames[j]? = some fj → fj.binds n = false) →
        ctx.getVar n true = fr.vars n) ∧
    (ctx.getVar n true = none ↔ ∀ fr ∈ ctx.frames, fr.binds n = false) ∧
    (∀ fr : Frame, ctx.frames[0]? = some fr → ctx.getVar n false = fr.vars n) ∧
    ((∀ fr ∈ ctx.frames, fr.binds n = false) →
        ctx.getVar n true = none ∧ ctx.getVar n false = none) := by
  have hiff : ∀ c : context,
      (c.getVar n true = none ↔ ∀ fr ∈ c.frames, fr.binds n = false) :=
    fun c => getVar_true_eq_none_iff c n
  have hloc : ∀ fr : Frame, ctx.frames[0]? = some fr → ctx.getVar n false = fr.vars n := by
    intro fr h
    rw [getVar_false]
    cases ctx <;>
      · simp only [context.frames, List.getElem?_cons_zero, Option.some.injEq] at h
        subst h
        rfl
  refine ⟨?_, hiff ctx, hloc, ?_⟩
  · induction ctx with
    | root fs vs =>
      intro i fr hi _ _
      cases i with
      | zero =>
        simp only [context.frames, List.getElem?_cons_zero, Option.some.injEq] at hi
        subst hi
        exact getVar_true_root fs vs n
      | succ k => simp [context.frames] at hi
    | child p fs vs ih =>
      intro i fr hi hb hmin
      cases i with
      | zero =>
        simp only [context.frames, List.getElem?_cons_zero, Option.some.injEq] at hi
        subst hi
        rw [binds_true_iff] at hb
        obtain ⟨w, hw⟩ := hb
        simp only at hw
        simp [getVar_true_child, hw]
      | succ k =>
        have h0 := hmin 0 ⟨fs, vs⟩ (Nat.succ_pos k) (by simp [context.frames])
        rw [binds_false_iff] at h0
        simp only at h0
        simp only [context.frames, List.getElem?_cons_succ] at hi
        have hk := ih (fun fr h => by
            rw [getVar_false]
            cases p <;>
              · simp only [context.frames, List.getElem?_cons_zero, Option.some.injEq] at h
                subst h
                rfl) k fr hi hb (fun j fj hj hfj =>
          hmin (j + 1) fj (Nat.succ_lt_succ hj) (by simpa [context.frames] using hfj))
        simp [getVar_true_child, h0, hk]
  · intro hall
    refine ⟨(hiff ctx).2 hall, ?_⟩
    rw [getVar_false]
    cases ctx with
    | root fs vs =>
      have := hall ⟨fs, vs⟩ (by simp [context.frames])
      rw [binds_false_iff] at this
      exact this
    | child p fs vs =>
      have := hall ⟨fs, vs⟩ (by simp [context.frames])
      rw [binds_false_iff] at this
      exact this

/-- C2 at `chainXX`: the nearest binding of `x` is the middle frame's `2`; `y` is bound
nowhere. -/
theorem getVar_first_binding_witness :
    chainXX.getVar "x" true = some "2" ∧ chainXX.getVar "x" false = none ∧
    chainXX.getVar "y" true = none ∧ chainXX.getVar "y" false = none :=
  have h := getVar_first_binding chainXX "y"
  have hy := h.2.2.2 (fun fr hfr => by
    simp only [chainXX, context.frames, List.mem_cons, List.mem_singleton, List.mem_nil_iff,
      or_false] at hfr
    rcases hfr with rfl | rfl | rfl <;> decide)
  ⟨(getVar_first_binding chainXX "x").1 1
      ⟨GoMap.empty, GoMap.set GoMap.empty "x" "2"⟩ rfl (by decide)
      (fun j fj hj hfj => by
        obtain rfl : j = 0 := by omega
        simp only [chainXX, context.frames, List.getElem?_cons_zero, Option.some.injEq] at hfj
        subst hfj
        decide),
    (getVar_first_binding chainXX "x").2.2.1 ⟨GoMap.empty, GoMap.empty⟩ rfl, hy.1, hy.2⟩

/-! ## C3: updateVar and deleteVar -/

theorem updateVar_snd (ctx : context) (n v : String) :
    (ctx.updateVar n v).2 = (ctx.getVar n true).isSome := by
  induction ctx with
  | root fs vs => cases h : vs n <;> simp [context.updateVar, getVar_true_root, h]
  | child p fs vs ih => cases h : vs n <;> simp [context.updateVar, getVar_true_child, h, ih]

theorem deleteVar_snd (ctx : context) (n : String) :
    (ctx.deleteVar n).2 = (ctx.getVar n true).isSome := by
  induction ctx with
  | root fs vs => cases h : vs n <;> simp [context.deleteVar, getVar_true_root, h]
  | child p fs vs ih => cases h : vs n <;> simp [context.deleteVar, getVar_true_child, h, ih]

theorem updateVar_fst_of_absent (ctx : context) (n v : String)
    (h : ctx.getVar n true = none) : (ctx.updateVar n v).1 = ctx := by
  induction ctx with
  | root fs vs =>
    rw [getVar_true_root] at h
    simp [context.updateVar, h]
  | child p fs vs ih =>
    rw [getVar_true_child] at h
    cases h0 : vs n with
    | some w => simp [h0] at h
    | none =>
      simp only [h0, Option.orElse_none] at h
      simp [context.updateVar, h0, ih h]

theorem deleteVar_fst_of_absent (ctx : context) (n : String)
    (h : ctx.getVar n true = none) : (ctx.deleteVar n).1 = ctx := by
  induction ctx with
  | root fs vs =>
    rw [getVar_true_root] at h
    simp [context.deleteVar, h]
  | child p fs vs ih =>
    rw [getVar_true_child] at h
    cases h0 : vs n with
    | some w => simp [h0] at h
    | none =>
      simp only [h0, Option.orElse_none] at h
      simp [context.deleteVar, h0, ih h]

/-- C3. `updateVar` and `deleteVar` return `true` exactly when `getVar n true` from the same
frame finds a binding, and when they return `false` the whole chain is left as it was. -/
theorem updateVar_deleteVar_success_iff_bound (ctx : context) (n v : String) :
    ((ctx.updateVar n v).2 = true ↔ ∃ w, ctx.getVar n true = some w) ∧
    ((ctx.updateVar n v).2 = false → (ctx.updateVar n v).1 = ctx) ∧
    ((ctx.deleteVar n).2 = true ↔ ∃ w, ctx.getVar n true = some w) ∧
    ((ctx.deleteVar n).2 = false → (ctx.deleteVar n).1 = ctx) := by
  rw [updateVar_snd, deleteVar_snd]
  refine ⟨Option.isSome_iff_exists, ?_, Option.isSome_iff_exists, ?_⟩
  · intro h
    apply updateVar_fst_of_absent
    cases hg : ctx.getVar n true with
    | none => rfl
    | some w => simp [hg] at h
  · intro h
    apply deleteVar_fst_of_absent
    cases hg : ctx.getVar n true with
    | none => rfl
    | some w => simp [hg] at h

/-- C3 at `chainX`: `y` is bound nowhere, so both operations fail and leave the chain alone;
`x` is bound in the root, so both succeed. -/
theorem updateVar_deleteVar_success_iff_bound_witness :
    (chainX.updateVar "y" "5").1 = chainX ∧ (chainX.deleteVar "y").1 = chainX ∧
    (chainX.updateVar "x" "5").2 = true ∧ (chainX.deleteVar "x").2 = true :=
  ⟨(updateVar_deleteVar_success_iff_bound chainX "y" "5").2.1 (by decide),
    (updateVar_deleteVar_success_iff_bound chainX "y" "5").2.2.2 (by decide),
    (updateVar_deleteVar_success_iff_bound chainX "x" "5").1.2 ⟨"1", by decide⟩,
    (updateVar_deleteVar_success_iff_bound chainX "x" "5").2.2.1.2 ⟨"1", by decide⟩⟩

/-! ## C4: the create command -/

theorem getVar_setVar_same (ctx : context) (n v : String) :
    (ctx.setVar n v).getVar n true = some v := by
  induction ctx with
  | root fs vs => simp [context.setVar, getVar_true_root, GoMap.set]
  | child p fs vs ih =>
    cases h : vs n with
    | none => simp [context.setVar, getVar_true_child, h, ih]
    | some w => simp [context.setVar, getVar_true_child, h, GoMap.set]

/-- C4 as stated fails for the name `id`: on a root that holds the built-ins and no variable,
`create id=id value=5` succeeds, yet afterwards `id` is not bound anywhere in the caller's
chain (the binding was made in the callee's frame, which binds `id` as an argument). -/
theorem create_id_not_bound_in_caller :
    (command.eval testLib 0 (createCmd "id" "5") rootBuiltIns).map
      (fun r => (r.err, r.ctx.getVar "id" true, r.out)) = some (none, none, []) := by
  decide

/-- C4, amended. When `create` resolves (chain search from the caller) to the built-in create
function and `n` is neither `id` nor `value`, evaluating `create` with the literals `id = n`,
`value = v` (in either order) returns no error, prints nothing and leaves the caller's chain as
`setVar n v` from the caller leaves it; afterwards `getVar n true` from the caller is `v`. -/
theorem create_command_assigns (lib : GoLib) (fuel : Nat) (ctx : context) (f : createFunc)
    (n v : String) (hf : ctx.getFunc "create" true = some (.createFunc f))
    (hid : n ≠ "id") (hval : n ≠ "value") :
    command.eval lib fuel (createCmd n v) ctx = some ⟨none, ctx.setVar n v, []⟩ ∧
    command.eval lib fuel ⟨"create", [.valueArg ⟨"value", v⟩, .valueArg ⟨"id", n⟩]⟩ ctx
      = some ⟨none, ctx.setVar n v, []⟩ ∧
    (ctx.setVar n v).getVar n true = some v := by
  refine ⟨?_, ?_, getVar_setVar_same ctx n v⟩
  · cases fuel <;>
      simp [command.eval, command.evalWith, createCmd, hf, function.eval, createFunc.eval,
        newContext, context.setOwnVar, argument.name, argument.value, valueArg.name,
        valueArg.value, context.getVar, context.vars, GoMap.set, GoMap.empty, attrID, attrVal,
        context.setVar, hid, hval, context.caller, context.parent]
  · cases fuel <;>
      simp [command.eval, command.evalWith, hf, function.eval, createFunc.eval,
        newContext, context.setOwnVar, argument.name, argument.value, valueArg.name,
        valueArg.value, context.getVar, context.vars, GoMap.set, GoMap.empty, attrID, attrVal,
        context.setVar, hid, hval, context.caller, context.parent]

/-- C4 amended, at `chainX`: `create id=x value=5` rewrites the root's binding of `x`. -/
theorem create_command_assigns_witness :
    command.eval testLib 0 (createCmd "x" "5") chainX = some ⟨none, chainX.setVar "x" "5", []⟩ ∧
    (chainX.setVar "x" "5").getVar "x" true = some "5" :=
  have h := create_command_assigns testLib 0 chainX ⟨"create"⟩ "x" "5" rfl (by decide)
    (by decide)
  ⟨h.1, h.2.2⟩

/-! ## C5: the delete command -/

/-- C5 as stated fails for the name `id`: on a root that holds the built-ins and no variable
(so `id` is bound in no frame of the caller's chain), `delete id=id` returns no error: the
callee's own frame binds `id` as an argument, and that binding is what `deleteVar` removes. -/
theorem delete_id_succeeds_when_unbound :
    rootBuiltIns.getVar "id" true = none ∧
    (command.eval testLib 0 (deleteCmd "id") rootBuiltIns).map
      (fun r => (r.err, r.out)) = some (none, []) := by
  decide

/-- C5, amended. When `delete` resolves (chain search from the caller) to the built-in delete
function, `n` is not `id` and no frame of the caller's chain binds `n`, evaluating `delete` with
the literal `id = n` returns the "delete failed, variable is undefined" error, prints nothing
and leaves the caller's chain exactly as it was. -/
theorem delete_command_unbound_fails (lib : GoLib) (fuel : Nat) (ctx : context) (f : deleteFunc)
    (n : String) (hf : ctx.getFunc "delete" true = some (.deleteFunc f))
    (hn : ∀ fr ∈ ctx.frames, fr.binds n = false) (hid : n ≠ "id") :
    command.eval lib fuel (deleteCmd n) ctx =
      some ⟨some (.errorf "failed to evaluate function %q: delete failed, variable %q is undefined"
        [f.name, n]), ctx, []⟩ := by
  have hg : ctx.getVar n true = none := (getVar_true_eq_none_iff ctx n).2 hn
  have h2 : (ctx.deleteVar n).2 = false := by rw [deleteVar_snd, hg]; rfl
  have h1 : (ctx.deleteVar n).1 = ctx := deleteVar_fst_of_absent ctx n hg
  cases fuel <;>
    simp [command.eval, command.evalWith, deleteCmd, hf, function.eval, deleteFunc.eval,
      newContext, context.setOwnVar, argument.name, argument.value, valueArg.name,
      valueArg.value, context.getVar, context.vars, GoMap.set, GoMap.empty, attrID,
      context.deleteVar, hid, h1, h2, context.caller, context.parent]

/-- C5 amended, at `chainX`, where `y` is bound nowhere. -/
theorem delete_command_unbound_fails_witness :
    command.eval testLib 0 (deleteCmd "y") chainX =
      some ⟨some (.errorf "failed to evaluate function %q: delete failed, variable %q is undefined"
        ["delete", "y"]), chainX, []⟩ :=
  delete_command_unbound_fails testLib 0 chainX ⟨"delete"⟩ "y" rfl
    (fun fr hfr => by
      simp only [chainX, context.frames, List.mem_cons, List.mem_singleton, List.mem_nil_iff,
        or_false] at hfr
      rcases hfr with rfl | rfl <;> decide)
    (by decide)

/-! ## C6: the frame a command builds -/

theorem foldl_setOwnVar (ctx p : context) (fs : GoMap function) :
    ∀ (args : List argument) (vs : GoMap String),
      args.foldl (fun newCtx arg => newCtx.setOwnVar arg.name (arg.value ctx))
          (context.child p fs vs) =
        context.child p fs
          (fun k => (argBindings args ctx k).orElse (fun _ => vs k)) := by
  intro args
  induction args with
  | nil =>
    intro vs
    simp [argBindings]
  | cons a rest ih =>
    intro vs
    rw [List.foldl_cons, context.setOwnVar, ih]
    congr 1
    funext k
    simp only [argBindings, List.reverse_cons, List.find?_append]
    cases hr : rest.reverse.find? (fun arg => decide (arg.name = k)) with
    | some b => simp
    | none =>
      by_cases hk : a.name = k
      · simp [GoMap.set, hk]
      · have hk2 : ¬ k = a.name := fun h => hk h.symm
        simp [GoMap.set, hk, hk2]

theorem newCtx_eq (c : command) (ctx : context) :
    c.arguments.foldl (fun newCtx arg => newCtx.setOwnVar arg.name (arg.value ctx))
        (newContext ctx) =
      context.child ctx GoMap.empty (argBindings c.arguments ctx) := by
  rw [newContext, foldl_setOwnVar]
  congr 1
  funext k
  cases argBindings c.arguments ctx k <;> simp [GoMap.empty]

/-- C6. When the command's target resolves to `f`, command evaluation calls `f` (whatever the
callee does, `call`) on the chain whose first frame is fresh, with the caller's chain as
parent, an empty function map, and as variable map exactly `arg.name -> arg.value(caller)`
over the command's arguments, the last occurrence of a name winning; it returns the callee's
error and output and the caller's part of the chain. Every argument is resolved against the
caller, none against the frame being built. The same holds of `command.eval` itself. -/
theorem command_eval_builds_fresh_frame (lib : GoLib) (fuel : Nat)
    (call : function → context → Option Result) (c : command) (ctx : context) (f : function)
    (hf : ctx.getFunc c.cmd true = some f) :
    command.evalWith call c ctx =
      (call f (context.child ctx GoMap.empty (argBindings c.arguments ctx))).map
        (fun r => ⟨r.err, r.ctx.caller, r.out⟩) ∧
    command.eval lib fuel c ctx =
      (function.eval lib fuel f
        (context.child ctx GoMap.empty (argBindings c.arguments ctx))).map
        (fun r => ⟨r.err, r.ctx.caller, r.out⟩) := by
  have h : ∀ call : function → context → Option Result, command.evalWith call c ctx =
      (call f (context.child ctx GoMap.empty (argBindings c.arguments ctx))).map
        (fun r => ⟨r.err, r.ctx.caller, r.out⟩) := by
    intro call
    simp only [command.evalWith, hf, newCtx_eq]
    cases call f (context.child ctx GoMap.empty (argBindings c.arguments ctx)) <;> rfl
  exact ⟨h call, h _⟩

/-- C6 at `rootBuiltIns` (which binds no variable) and `printCmdRepeated`: the later `value`
wins, and `$value`, `#value` resolve against the caller, where `value` is unbound. -/
theorem command_eval_builds_fresh_frame_witness :
    command.eval testLib 0 printCmdRepeated rootBuiltIns =
      (function.eval testLib 0 (.printFunc ⟨"print"⟩)
        (context.child rootBuiltIns GoMap.empty
          (argBindings printCmdRepeated.arguments rootBuiltIns))).map
        (fun r => ⟨r.err, r.ctx.caller, r.out⟩) ∧
    argBindings printCmdRepeated.arguments rootBuiltIns "value" = some "2" ∧
    argBindings printCmdRepeated.arguments rootBuiltIns "x" = some "undefined" ∧
    argBindings printCmdRepeated.arguments rootBuiltIns "y" = some "undefined" ∧
    argBindings printCmdRepeated.arguments rootBuiltIns "z" = none :=
  ⟨(command_eval_builds_fresh_frame testLib 0 (function.eval testLib 0) printCmdRepeated
      rootBuiltIns (.printFunc ⟨"print"⟩) rfl).2,
    by decide, by decide, by decide, by decide⟩

/-! ## C7: argument resolution -/

/-- C7 as stated fails where a variable holds the string `undefined`: on a root with the
built-ins, `create id=x value=undefined` returns no error and binds `x`; a Ref argument `#x`
resolved against that root then returns `"undefined"` although a frame binds `x`. -/
theorem ref_returns_undefined_although_bound :
    (command.eval testLib 0 (createCmd "x" "undefined") rootBuiltIns).map
      (fun r => (r.err, r.ctx.frames.any (Frame.binds "x"), r.ctx.getVar "x" true,
        (argument.refArg ⟨"a", "x"⟩).value r.ctx)) =
      some (none, true, some "undefined", "undefined") := by
  decide

/-- C7, amended. A Param argument resolves to the caller frame's own binding of its `ref`, and
to `"undefined"` when that frame does not bind it, whatever the ancestors bind; a Ref argument
resolves to the nearest binding on the chain, and to `"undefined"` when the name is bound
nowhere; it returns `"undefined"` only when the name is bound nowhere or its nearest binding is
that very string; a Literal resolves to its stored value in every context. `argument.value` is
a total function, so resolution never fails. -/
theorem argument_value_resolution (ctx : context) (label n val : String) :
    (∀ w, ctx.vars n = some w → (argument.paramArg ⟨label, n⟩).value ctx = w) ∧
    (ctx.vars n = none → (argument.paramArg ⟨label, n⟩).value ctx = "undefined") ∧
    (∀ (i : Nat) (fr : Frame) (w : String), ctx.frames[i]? = some fr → fr.vars n = some w →
        (∀ (j : Nat) (fj : Frame), j < i → ctx.frames[j]? = some fj → fj.binds n = false) →
        (argument.refArg ⟨label, n⟩).value ctx = w) ∧
    ((∀ fr ∈ ctx.frames, fr.binds n = false) →
        (argument.refArg ⟨label, n⟩).value ctx = "undefined") ∧
    ((argument.refArg ⟨label, n⟩).value ctx = "undefined" →
        (∀ fr ∈ ctx.frames, fr.binds n = false) ∨ ctx.getVar n true = some "undefined") ∧
    (argument.valueArg ⟨label, val⟩).value ctx = val := by
  refine ⟨?_, ?_, ?_, ?_, ?_, rfl⟩
  · intro w hw
    simp [argument.value, paramArg.value, getVar_false, hw]
  · intro hw
    simp [argument.value, paramArg.value, getVar_false, hw, undefinedValue]
  · intro i
    induction ctx generalizing i with
    | root fs vs =>
      intro fr w hi hw _
      cases i with
      | zero =>
        simp only [context.frames, List.getElem?_cons_zero, Option.some.injEq] at hi
        subst hi
        simp only at hw
        simp [argument.value, refArg.value, getVar_true_root, hw]
      | succ k => simp [context.frames] at hi
    | child p fs vs ih =>
      intro fr w hi hw hmin
      cases i with
      | zero =>
        simp only [context.frames, List.getElem?_cons_zero, Option.some.injEq] at hi
        subst hi
        simp only at hw
        simp [argument.value, refArg.value, getVar_true_child, hw]
      | succ k =>
        have h0 := hmin 0 ⟨fs, vs⟩ (Nat.succ_pos k) (by simp [context.frames])
        rw [binds_false_iff] at h0
        simp only at h0
        simp only [context.frames, List.getElem?_cons_succ] at hi
        have hk := ih k fr w hi hw (fun j fj hj hfj =>
          hmin (j + 1) fj (Nat.succ_lt_succ hj) (by simpa [context.frames] using hfj))
        simp only [argument.value, refArg.value] at hk ⊢
        simpa [getVar_true_child, h0] using hk
  · intro hall
    simp [argument.value, refArg.value, (getVar_true_eq_none_iff ctx n).2 hall, undefinedValue]
  · intro h
    simp only [argument.value, refArg.value] at h
    cases hg : ctx.getVar n true with
    | none => exact Or.inl ((getVar_true_eq_none_iff ctx n).1 hg)
    | some w =>
      rw [hg] at h
      simp only at h
      exact Or.inr (by rw [h])

/-- C7 amended, at `chainX`, whose root binds `x` to `1` and whose starting frame binds
nothing. -/
theorem argument_value_resolution_witness :
    (argument.paramArg ⟨"a", "x"⟩).value chainX = "undefined" ∧
    (argument.refArg ⟨"a", "x"⟩).value chainX = "1" ∧
    (argument.refArg ⟨"a", "y"⟩).value chainX = "undefined" ∧
    (argument.paramArg ⟨"a", "x"⟩).value chainX.caller = "1" :=
  have h := argument_value_resolution chainX "a" "x" "0"
  have hy := argument_value_resolution chainX "a" "y" "0"
  ⟨h.2.1 (by decide),
    h.2.2.1 1 ⟨addBuiltIns GoMap.empty, GoMap.set GoMap.empty "x" "1"⟩ "1" rfl (by decide)
      (fun j fj hj hfj => by
        obtain rfl : j = 0 := by omega
        simp only [chainX, context.frames, List.getElem?_cons_zero, Option.some.injEq] at hfj
        subst hfj
        decide),
    hy.2.2.2.1 (fun fr hfr => by
      simp only [chainX, context.frames, List.mem_cons, List.mem_singleton, List.mem_nil_iff,
        or_false] at hfr
      rcases hfr with rfl | rfl <;> decide),
    (argument_value_resolution chainX.caller "a" "x" "0").1 "1" (by decide)⟩

/-! ## C8: parseArg -/

theorem hasPrefix_char_iff (c : Char) (s : String) :
    strings.HasPrefix s (String.mk [c]) = true ↔ ∃ rest : String, s = String.mk [c] ++ rest := by
  constructor
  · intro h
    cases hs : s.data with
    | nil => simp [strings.HasPrefix, hs] at h
    | cons a tl =>
      simp only [strings.HasPrefix, hs, List.isPrefixOf, Bool.and_eq_true, beq_iff_eq] at h
      refine ⟨String.mk tl, ?_⟩
      apply String.ext
      simp [hs, h.1]
  · rintro ⟨rest, rfl⟩
    simp [strings.HasPrefix, List.isPrefixOf]

theorem sliceFrom1_append (c : Char) (rest : String) :
    sliceFrom1 (String.mk [c] ++ rest) = rest := by
  apply String.ext
  simp [sliceFrom1]

/-- C8. `parseArg` always succeeds. A value `$rest` gives a Param with ref `rest`, a value
`#rest` gives a Ref with ref `rest`, and a value that starts with neither sigil gives a Literal
holding the value unchanged. One sigil character is removed (`$$x` gives Param `$x`, `$` gives
Param with the empty ref), and the argument's name is the given parameter name. -/
theorem parseArg_by_sigil (name value : String) :
    (∀ rest : String, parseArg name ("$" ++ rest) = .ok (.paramArg ⟨name, rest⟩)) ∧
    (∀ rest : String, parseArg name ("#" ++ rest) = .ok (.refArg ⟨name, rest⟩)) ∧
    ((∀ rest : String, value ≠ "$" ++ rest) → (∀ rest : String, value ≠ "#" ++ rest) →
        parseArg name value = .ok (.valueArg ⟨name, value⟩)) ∧
    parseArg name "$$x" = .ok (.paramArg ⟨name, "$x"⟩) ∧
    parseArg name "$" = .ok (.paramArg ⟨name, ""⟩) ∧
    (∃ arg, parseArg name value = .ok arg ∧ arg.name = name) := by
  have hd : ("$" : String) = String.mk ['$'] := rfl
  have hh : ("#" : String) = String.mk ['#'] := rfl
  have hp : ∀ rest : String, parseArg name ("$" ++ rest) = .ok (.paramArg ⟨name, rest⟩) := by
    intro rest
    have h1 : strings.HasPrefix ("$" ++ rest) "$" = true := by
      rw [hd]
      exact (hasPrefix_char_iff _ _).2 ⟨rest, rfl⟩
    rw [parseArg, if_pos h1, hd, sliceFrom1_append]
  have hr : ∀ rest : String, parseArg name ("#" ++ rest) = .ok (.refArg ⟨name, rest⟩) := by
    intro rest
    have h1 : strings.HasPrefix ("#" ++ rest) "$" = false := by
      simp [strings.HasPrefix, List.isPrefixOf]
    have h2 : strings.HasPrefix ("#" ++ rest) "#" = true := by
      rw [hh]
      exact (hasPrefix_char_iff _ _).2 ⟨rest, rfl⟩
    rw [parseArg, if_neg (by simp [h1]), if_pos h2, hh, sliceFrom1_append]
  have hv : (∀ rest : String, value ≠ "$" ++ rest) → (∀ rest : String, value ≠ "#" ++ rest) →
      parseArg name value = .ok (.valueArg ⟨name, value⟩) := by
    intro h1 h2
    have n1 : ¬ strings.HasPrefix value "$" = true := by
      rw [hd, hasPrefix_char_iff]
      rintro ⟨rest, hrest⟩
      exact h1 rest hrest
    have n2 : ¬ strings.HasPrefix value "#" = true := by
      rw [hh, hasPrefix_char_iff]
      rintro ⟨rest, hrest⟩
      exact h2 rest hrest
    rw [parseArg, if_neg n1, if_neg n2]
  refine ⟨hp, hr, hv, hp "$x", hp "", ?_⟩
  unfold parseArg
  split
  · exact ⟨_, rfl, rfl⟩
  · split
    · exact ⟨_, rfl, rfl⟩
    · exact ⟨_, rfl, rfl⟩

/-- C8 on the values `$a`, `#a` and `a`. -/
theorem parseArg_by_sigil_witness :
    parseArg "id" "$a" = .ok (.paramArg ⟨"id", "a"⟩) ∧
    parseArg "id" "#a" = .ok (.refArg ⟨"id", "a"⟩) ∧
    parseArg "id" "a" = .ok (.valueArg ⟨"id", "a"⟩) :=
  have h := parseArg_by_sigil "id" "a"
  ⟨h.1 "a", h.2.1 "a",
    h.2.2.1
      (fun rest hrest => by
        have := congrArg (fun s : String => s.data.head?) hrest
        simp at this)
      (fun rest hrest => by
        have := congrArg (fun s : String => s.data.head?) hrest
        simp at this)⟩

/-! ## C9: a built-in whose frame lacks a required attribute -/

theorem eval_createFunc (lib : GoLib) (fuel : Nat) (g : createFunc) (ctx : context) :
    function.eval lib fuel (.createFunc g) ctx = some (g.eval ctx) := by
  cases fuel <;> rfl

theorem eval_deleteFunc (lib : GoLib) (fuel : Nat) (g : deleteFunc) (ctx : context) :
    function.eval lib fuel (.deleteFunc g) ctx = some (g.eval ctx) := by
  cases fuel <;> rfl

theorem eval_updateFunc (lib : GoLib) (fuel : Nat) (g : updateFunc) (ctx : context) :
    function.eval lib fuel (.updateFunc g) ctx = some (g.eval ctx) := by
  cases fuel <;> rfl

theorem eval_printFunc (lib : GoLib) (fuel : Nat) (g : printFunc) (ctx : context) :
    function.eval lib fuel (.printFunc g) ctx = some (g.eval lib ctx) := by
  cases fuel <;> rfl

theorem eval_binOp (lib : GoLib) (fuel : Nat) (g : binOp) (ctx : context) :
    function.eval lib fuel (.binOp g) ctx = some (g.eval lib ctx) := by
  cases fuel <;> rfl

/-- C9. For each built-in and each attribute it requires: when the frame it is evaluated in
does not itself bind that attribute (whatever the caller's frame and the other ancestors
bind), evaluation returns a missing-argument error, prints nothing and leaves the whole chain
as it was. -/
theorem builtin_missing_attribute (lib : GoLib) (fuel : Nat) (f : function) (ctx : context)
    (attr : String) (hattr : attr ∈ requiredAttrs f) (hmiss : ctx.vars attr = none) :
    ∃ e : GoError, function.eval lib fuel f ctx = some ⟨some e, ctx, []⟩ ∧
      e.isMissingArgument = true := by
  cases f with
  | customFunc g => simp [requiredAttrs] at hattr
  | createFunc g =>
    simp only [requiredAttrs, List.mem_cons, List.mem_singleton, List.mem_nil_iff,
      or_false] at hattr
    rw [eval_createFunc]
    cases hid : ctx.vars attrID with
    | none =>
      exact ⟨.errorf "failed to evaluate function %q: missing %q argument" [g.name, attrID],
        by simp [createFunc.eval, getVar_false, hid], rfl⟩
    | some id =>
      rcases hattr with rfl | rfl
      · rw [hid] at hmiss
        cases hmiss
      · exact ⟨.errorf "failed to evaluate function %q: missing %q argument" [g.name, attrVal],
          by simp [createFunc.eval, getVar_false, hid, hmiss], rfl⟩
  | deleteFunc g =>
    simp only [requiredAttrs, List.mem_singleton] at hattr
    subst hattr
    rw [eval_deleteFunc]
    exact ⟨.errorf "failed to evaluate function %q: missing %q argument" [g.name, attrID],
      by simp [deleteFunc.eval, getVar_false, hmiss], rfl⟩
  | updateFunc g =>
    simp only [requiredAttrs, List.mem_cons, List.mem_singleton, List.mem_nil_iff,
      or_false] at hattr
    rw [eval_updateFunc]
    cases hid : ctx.vars attrID with
    | none =>
      exact ⟨.errorf "failed to evaluate function %q: missing %q argument" [g.name, attrID],
        by simp [updateFunc.eval, getVar_false, hid], rfl⟩
    | some id =>
      rcases hattr with rfl | rfl
      · rw [hid] at hmiss
        cases hmiss
      · exact ⟨.errorf "failed to evaluate function %q: missing %q argument" [g.name, attrVal],
          by simp [updateFunc.eval, getVar_false, hid, hmiss], rfl⟩
  | printFunc g =>
    simp only [requiredAttrs, List.mem_singleton] at hattr
    subst hattr
    rw [eval_printFunc]
    exact ⟨.errorf "failed to evaluate function %q: missing %q argument" [g.name, attrVal],
      by simp [printFunc.eval, getVar_false, hmiss], rfl⟩
  | binOp g =>
    simp only [requiredAttrs, List.mem_cons, List.mem_singleton, List.mem_nil_iff,
      or_false] at hattr
    rw [eval_binOp]
    cases hid : ctx.vars attrID with
    | none =>
      exact ⟨.errorf "cannot evaluate %q function: %q is missing" [g.name, attrID],
        by simp [binOp.eval, getVar_false, hid], rfl⟩
    | some id =>
      cases h1 : ctx.vars attrOp1 with
      | none =>
        exact ⟨.errorf "cannot evaluate %q function: %q is missing" [g.name, attrOp1],
          by simp [binOp.eval, getVar_false, hid, h1], rfl⟩
      | some op1 =>
        rcases hattr with rfl | rfl | rfl
        · rw [hid] at hmiss
          cases hmiss
        · rw [h1] at hmiss
          cases hmiss
        · exact ⟨.errorf "cannot evaluate %q function: %q is missing" [g.name, attrOp2],
            by simp [binOp.eval, getVar_false, hid, h1, hmiss], rfl⟩

/-- C9 at `chainAttrs`: the root binds `operand2`, the frame `add` runs in does not. -/
theorem builtin_missing_attribute_witness :
    ∃ e : GoError,
      function.eval testLib 0 (.binOp ⟨"add", fun a b => a + b⟩) chainAttrs =
        some ⟨some e, chainAttrs, []⟩ ∧
      e.isMissingArgument = true :=
  builtin_missing_attribute testLib 0 (.binOp ⟨"add", fun a b => a + b⟩) chainAttrs "operand2"
    (by decide) (by decide)

/-! ## C10: customFunc.eval -/

theorem find?_of_first {α : Type} (p : α → Bool) :
    ∀ (l : List α) (i : Nat) (a : α), l[i]? = some a → p a = true →
      (∀ (j : Nat) (b : α), j < i → l[j]? = some b → p b = false) → l.find? p = some a := by
  intro l
  induction l with
  | nil => intro i a h; simp at h
  | cons x xs ih =>
    intro i a h hp hmin
    cases i with
    | zero =>
      simp only [List.getElem?_cons_zero, Option.some.injEq] at h
      subst h
      simp [List.find?, hp]
    | succ k =>
      have hx := hmin 0 x (Nat.succ_pos k) (by simp)
      simp only [List.getElem?_cons_succ] at h
      simp only [List.find?, hx]
      exact ih k a h hp (fun j b hj hb => hmin (j + 1) b (Nat.succ_lt_succ hj) (by simpa using hb))

theorem getVar_eq_find (ctx : context) (n : String) :
    ctx.getVar n true = (ctx.frames.find? (Frame.binds n)).bind (fun fr => fr.vars n) := by
  induction ctx with
  | root fs vs =>
    rw [getVar_true_root]
    cases h : vs n <;> simp [context.frames, List.find?, Frame.binds, h]
  | child p fs vs ih =>
    rw [getVar_true_child, ih]
    cases h : vs n <;> simp [context.frames, List.find?, Frame.binds, h]

theorem getFunc_true_root (fs : GoMap function) (vs : GoMap String) (n : String) :
    (context.root fs vs).getFunc n true = fs n := by
  simp [context.getFunc]

theorem getFunc_true_child (p : context) (fs : GoMap function) (vs : GoMap String) (n : String) :
    (context.child p fs vs).getFunc n true = (fs n).orElse (fun _ => p.getFunc n true) := by
  cases h : fs n <;> simp [context.getFunc, h]

theorem getFunc_eq_find (ctx : context) (n : String) :
    ctx.getFunc n true =
      (ctx.frames.find? (Frame.bindsFunc n)).bind (fun fr => fr.functions n) := by
  induction ctx with
  | root fs vs =>
    rw [getFunc_true_root]
    cases h : fs n <;> simp [context.frames, List.find?, Frame.bindsFunc, h]
  | child p fs vs ih =>
    rw [getFunc_true_child, ih]
    cases h : fs n <;> simp [context.frames, List.find?, Frame.bindsFunc, h]

theorem getFunc_none_of_unbound (ctx : context) (n : String)
    (h : ∀ fr ∈ ctx.frames, fr.bindsFunc n = false) : ctx.getFunc n true = none := by
  rw [getFunc_eq_find]
  have : ctx.frames.find? (Frame.bindsFunc n) = none := by
    rw [List.find?_eq_none]
    intro fr hfr
    simp [h fr hfr]
  rw [this]
  rfl

theorem getFunc_of_first (ctx : context) (n : String) (i : Nat) (fr : Frame) (f : function)
    (hi : ctx.frames[i]? = some fr) (hf : fr.functions n = some f)
    (hmin : ∀ (j : Nat) (fj : Frame), j < i → ctx.frames[j]? = some fj →
      fj.bindsFunc n = false) : ctx.getFunc n true = some f := by
  rw [getFunc_eq_find, find?_of_first (Frame.bindsFunc n) ctx.frames i fr hi
    (by simp [Frame.bindsFunc, hf]) hmin]
  simpa using hf

/-! ## C11: the target of a command -/

/-- C11. When no frame on the chain from the caller to the root binds the command's target in
its function map, command evaluation returns the "function is not defined" error and the
caller's chain unchanged, and prints nothing; the callee evaluator and the command's arguments
play no part in that result. When frame `i` is the nearest frame that binds the target, the
function evaluated is the one that frame binds. -/
theorem command_eval_target_lookup (lib : GoLib) (fuel : Nat)
    (call : function → context → Option Result) (c : command) (ctx : context) :
    ((∀ fr ∈ ctx.frames, fr.bindsFunc c.cmd = false) →
        (∀ arguments : List argument,
          command.evalWith call ⟨c.cmd, arguments⟩ ctx =
            some ⟨some (.errorf "failed to evaluate command: function %q is not defined" [c.cmd]),
              ctx, []⟩) ∧
        command.eval lib fuel c ctx =
          some ⟨some (.errorf "failed to evaluate command: function %q is not defined" [c.cmd]),
            ctx, []⟩) ∧
    (∀ (i : Nat) (fr : Frame) (f : function), ctx.frames[i]? = some fr →
        fr.functions c.cmd = some f →
        (∀ (j : Nat) (fj : Frame), j < i → ctx.frames[j]? = some fj →
          fj.bindsFunc c.cmd = false) →
        command.evalWith call c ctx =
          (call f (context.child ctx GoMap.empty (argBindings c.arguments ctx))).map
            (fun r => ⟨r.err, r.ctx.caller, r.out⟩) ∧
        command.eval lib fuel c ctx =
          (function.eval lib fuel f
            (context.child ctx GoMap.empty (argBindings c.arguments ctx))).map
            (fun r => ⟨r.err, r.ctx.caller, r.out⟩)) := by
  refine ⟨?_, ?_⟩
  · intro hall
    have hg := getFunc_none_of_unbound ctx c.cmd hall
    refine ⟨fun arguments => ?_, ?_⟩
    · simp [command.evalWith, hg]
    · simp [command.eval, command.evalWith, hg]
  · intro i fr f hi hf hmin
    have hg := getFunc_of_first ctx c.cmd i fr f hi hf hmin
    have h : ∀ call : function → context → Option Result, command.evalWith call c ctx =
        (call f (context.child ctx GoMap.empty (argBindings c.arguments ctx))).map
          (fun r => ⟨r.err, r.ctx.caller, r.out⟩) := by
      intro call
      simp only [command.evalWith, hg, newCtx_eq]
      cases call f (context.child ctx GoMap.empty (argBindings c.arguments ctx)) <;> rfl
    exact ⟨h call, h _⟩

/-- C11 at `chainX`: `nosuch` is bound nowhere; `create` is bound in the root (frame 1) only. -/
theorem command_eval_target_lookup_witness :
    command.eval testLib 0 ⟨"nosuch", [.refArg ⟨"a", "x"⟩]⟩ chainX =
      some ⟨some (.errorf "failed to evaluate command: function %q is not defined" ["nosuch"]),
        chainX, []⟩ ∧
    command.eval testLib 0 (createCmd "y" "2") chainX =
      (function.eval testLib 0 (.createFunc ⟨"create"⟩)
        (context.child chainX GoMap.empty (argBindings (createCmd "y" "2").arguments chainX))).map
        (fun r => ⟨r.err, r.ctx.caller, r.out⟩) :=
  ⟨((command_eval_target_lookup testLib 0 (function.eval testLib 0)
      ⟨"nosuch", [.refArg ⟨"a", "x"⟩]⟩ chainX).1 (fun fr hfr => by
        simp only [chainX, context.frames, List.mem_cons, List.mem_singleton, List.mem_nil_iff,
          or_false] at hfr
        rcases hfr with rfl | rfl <;> decide)).2,
    ((command_eval_target_lookup testLib 0 (function.eval testLib 0)
      (createCmd "y" "2") chainX).2 1
        ⟨addBuiltIns GoMap.empty, GoMap.set GoMap.empty "x" "1"⟩ (.createFunc ⟨"create"⟩) rfl rfl
        (fun j fj hj hfj => by
          obtain rfl : j = 0 := by omega
          simp only [chainX, context.frames, List.getElem?_cons_zero, Option.some.injEq] at hfj
          subst hfj
          decide)).2⟩

/-! ## Shared lemmas: evaluation leaves the function maps alone -/

theorem funcMaps_root (fs : GoMap function) (vs : GoMap String) :
    (context.root fs vs).funcMaps = [fs] := rfl

theorem funcMaps_child (p : context) (fs : GoMap function) (vs : GoMap String) :
    (context.child p fs vs).funcMaps = fs :: p.funcMaps := rfl

theorem funcMaps_ne_nil (ctx : context) : ctx.funcMaps ≠ [] := by
  cases ctx <;> simp [context.funcMaps, context.frames]

theorem funcMaps_setVar (ctx : context) (n v : String) :
    (ctx.setVar n v).funcMaps = ctx.funcMaps := by
  induction ctx with
  | root fs vs => rfl
  | child p fs vs ih =>
    cases h : vs n <;> simp [context.setVar, h, funcMaps_child, ih]

theorem funcMaps_updateVar (ctx : context) (n v : String) :
    (ctx.updateVar n v).1.funcMaps = ctx.funcMaps := by
  induction ctx with
  | root fs vs => cases h : vs n <;> simp [context.updateVar, h, funcMaps_root]
  | child p fs vs ih => cases h : vs n <;> simp [context.updateVar, h, funcMaps_child, ih]

theorem funcMaps_deleteVar (ctx : context) (n : String) :
    (ctx.deleteVar n).1.funcMaps = ctx.funcMaps := by
  induction ctx with
  | root fs vs => cases h : vs n <;> simp [context.deleteVar, h, funcMaps_root]
  | child p fs vs ih => cases h : vs n <;> simp [context.deleteVar, h, funcMaps_child, ih]

theorem funcMaps_caller (r ctx : context) (fs : GoMap function)
    (h : r.funcMaps = fs :: ctx.funcMaps) : r.caller.funcMaps = ctx.funcMaps := by
  cases r with
  | root fs2 vs2 =>
    rw [funcMaps_root] at h
    simp only [List.cons.injEq] at h
    exact absurd h.2.symm (funcMaps_ne_nil ctx)
  | child p fs2 vs2 =>
    rw [funcMaps_child] at h
    simp only [List.cons.injEq] at h
    simpa [context.caller, context.parent] using h.2

theorem funcMaps_createFunc (g : createFunc) (ctx : context) :
    (g.eval ctx).ctx.funcMaps = ctx.funcMaps := by
  unfold createFunc.eval
  split
  · rfl
  · split
    · rfl
    · exact funcMaps_setVar _ _ _

theorem funcMaps_deleteFunc (g : deleteFunc) (ctx : context) :
    (g.eval ctx).ctx.funcMaps = ctx.funcMaps := by
  unfold deleteFunc.eval
  split
  · rfl
  · split <;> exact funcMaps_deleteVar _ _

theorem funcMaps_updateFunc (g : updateFunc) (ctx : context) :
    (g.eval ctx).ctx.funcMaps = ctx.funcMaps := by
  unfold updateFunc.eval
  split
  · rfl
  · split
    · rfl
    · split <;> exact funcMaps_updateVar _ _ _

theorem funcMaps_printFunc (lib : GoLib) (g : printFunc) (ctx : context) :
    (g.eval lib ctx).ctx.funcMaps = ctx.funcMaps := by
  unfold printFunc.eval
  split
  · rfl
  · split <;> rfl

theorem funcMaps_binOp (lib : GoLib) (g : binOp) (ctx : context) :
    (g.eval lib ctx).ctx.funcMaps = ctx.funcMaps := by
  unfold binOp.eval
  split
  · rfl
  · split
    · rfl
    · split
      · rfl
      · split
        · rfl
        · split
          · rfl
          · exact funcMaps_setVar _ _ _

theorem funcMaps_command_evalWith (call : function → context → Option Result)
    (hcall : ∀ (f : function) (ctx : context) (r : Result),
      call f ctx = some r → r.ctx.funcMaps = ctx.funcMaps)
    (c : command) (ctx : context) (r : Result) (h : command.evalWith call c ctx = some r) :
    r.ctx.funcMaps = ctx.funcMaps := by
  unfold command.evalWith at h
  cases hg : ctx.getFunc c.cmd true with
  | none =>
    simp only [hg, Option.some.injEq] at h
    rw [← h]
  | some f =>
    simp only [hg, newCtx_eq] at h
    cases hc : call f (context.child ctx GoMap.empty (argBindings c.arguments ctx)) with
    | none => simp [hc] at h
    | some r2 =>
      simp only [hc, Option.some.injEq] at h
      rw [← h]
      exact funcMaps_caller _ _ GoMap.empty (by rw [hcall f _ r2 hc, funcMaps_child])

theorem funcMaps_customFunc_evalWith (evalCmd : command → context → Option Result)
    (hev : ∀ (c : command) (ctx : context) (r : Result),
      evalCmd c ctx = some r → r.ctx.funcMaps = ctx.funcMaps) (name : String) :
    ∀ (cmds : List command) (ctx : context) (r : Result),
      customFunc.evalWith evalCmd name cmds ctx = some r → r.ctx.funcMaps = ctx.funcMaps := by
  intro cmds
  induction cmds with
  | nil =>
    intro ctx r h
    simp only [customFunc.evalWith, Option.some.injEq] at h
    rw [← h]
  | cons c rest ih =>
    intro ctx r h
    rw [customFunc.evalWith] at h
    cases hc : evalCmd c ctx with
    | none => simp [hc] at h
    | some r1 =>
      have h1 := hev c ctx r1 hc
      simp only [hc] at h
      cases he : r1.err with
      | some e =>
        simp only [he, Option.some.injEq] at h
        rw [← h]
        exact h1
      | none =>
        simp only [he] at h
        cases hr : customFunc.evalWith evalCmd name rest r1.ctx with
        | none => simp [hr] at h
        | some r2 =>
          simp only [hr, Option.some.injEq] at h
          rw [← h]
          exact (ih r1.ctx r2 hr).trans h1

theorem funcMaps_function_eval (lib : GoLib) :
    ∀ (fuel : Nat) (f : function) (ctx : context) (r : Result),
      function.eval lib fuel f ctx = some r → r.ctx.funcMaps = ctx.funcMaps := by
  intro fuel
  induction fuel with
  | zero =>
    intro f ctx r h
    cases f with
    | customFunc g => simp [function.eval] at h
    | createFunc g =>
      rw [eval_createFunc] at h
      cases h
      exact funcMaps_createFunc g ctx
    | deleteFunc g =>
      rw [eval_deleteFunc] at h
      cases h
      exact funcMaps_deleteFunc g ctx
    | updateFunc g =>
      rw [eval_updateFunc] at h
      cases h
      exact funcMaps_updateFunc g ctx
    | printFunc g =>
      rw [eval_printFunc] at h
      cases h
      exact funcMaps_printFunc lib g ctx
    | binOp g =>
      rw [eval_binOp] at h
      cases h
      exact funcMaps_binOp lib g ctx
  | succ k ih =>
    intro f ctx r h
    cases f with
    | customFunc g =>
      rw [function.eval] at h
      exact funcMaps_customFunc_evalWith _
        (fun c ctx r hc => funcMaps_command_evalWith _ ih c ctx r hc) g.name g.commands ctx r h
    | createFunc g =>
      rw [eval_createFunc] at h
      cases h
      exact funcMaps_createFunc g ctx
    | deleteFunc g =>
      rw [eval_deleteFunc] at h
      cases h
      exact funcMaps_deleteFunc g ctx
    | updateFunc g =>
      rw [eval_updateFunc] at h
      cases h
      exact funcMaps_updateFunc g ctx
    | printFunc g =>
      rw [eval_printFunc] at h
      cases h
      exact funcMaps_printFunc lib g ctx
    | binOp g =>
      rw [eval_binOp] at h
      cases h
      exact funcMaps_binOp lib g ctx

theorem funcMaps_command_eval (lib : GoLib) (fuel : Nat) (c : command) (ctx : context)
    (r : Result) (h : command.eval lib fuel c ctx = some r) : r.ctx.funcMaps = ctx.funcMaps :=
  funcMaps_command_evalWith _ (funcMaps_function_eval lib fuel) c ctx r h

/-! ## Shared lemmas on parsing -/

theorem parseArg_isOk (name value : String) : ∃ arg, parseArg name value = .ok arg := by
  unfold parseArg
  split
  · exact ⟨_, rfl⟩
  · split <;> exact ⟨_, rfl⟩

theorem parseCommandArgs_isOk (fmtV : JSONValue → String) :
    ∀ data : List (String × JSONValue), ∃ args, parseCommandArgs fmtV data = .ok args := by
  intro data
  induction data with
  | nil => exact ⟨[], rfl⟩
  | cons kv rest ih =>
    obtain ⟨k, v⟩ := kv
    obtain ⟨args, hargs⟩ := ih
    obtain ⟨arg, harg⟩ := parseArg_isOk k (fmtV v)
    by_cases hk : k = "cmd"
    · exact ⟨args, by simp [parseCommandArgs, hk, hargs]⟩
    · exact ⟨arg :: args, by simp [parseCommandArgs, hk, hargs, harg]⟩

theorem lookup_isSome_iff (k : String) :
    ∀ data : List (String × JSONValue),
      (∃ c, data.lookup k = some c) ↔ ∃ c, (k, c) ∈ data := by
  intro data
  induction data with
  | nil => simp
  | cons kv rest ih =>
    obtain ⟨k2, v⟩ := kv
    by_cases hk : k = k2
    · subst hk
      simp [List.lookup]
    · have hb : (k == k2) = false := by simpa using hk
      simp only [List.lookup, hb, ih, List.mem_cons, Prod.mk.injEq, hk, false_and, false_or]

theorem parseCommand_isOk_iff (fmtV : JSONValue → String) (data : List (String × JSONValue)) :
    (∃ c, parseCommand fmtV data = .ok c) ↔ ∃ v, ("cmd", v) ∈ data := by
  rw [← lookup_isSome_iff]
  obtain ⟨args, hargs⟩ := parseCommandArgs_isOk fmtV data
  cases hl : data.lookup "cmd" with
  | none => simp [parseCommand, hl]
  | some c => simp [parseCommand, hl, hargs]

theorem isCommandObject_object (entries : List (String × JSONValue)) :
    (JSONValue.object entries).isCommandObject ↔ ∃ c, ("cmd", c) ∈ entries := Iff.rfl

theorem parseFunctionCommands_isOk_iff (fmtV : JSONValue → String) (name : String) :
    ∀ data : List JSONValue,
      (∃ cmds, parseFunctionCommands fmtV name data = .ok cmds) ↔
        ∀ e ∈ data, e.isCommandObject := by
  intro data
  induction data with
  | nil => simp [parseFunctionCommands]
  | cons e rest ih =>
    cases e with
    | object val =>
      cases hc : parseCommand fmtV val with
      | error err =>
        have hno : ¬ ∃ v, ("cmd", v) ∈ val := by
          rw [← parseCommand_isOk_iff fmtV val]
          simp [hc]
        simp [parseFunctionCommands, hc, isCommandObject_object, hno]
      | ok command =>
        have hyes : ∃ v, ("cmd", v) ∈ val := by
          rw [← parseCommand_isOk_iff fmtV val]
          exact ⟨command, hc⟩
        cases hr : parseFunctionCommands fmtV name rest with
        | error err =>
          have hno : ¬ ∀ e ∈ rest, e.isCommandObject := by
            rw [← ih]
            simp [hr]
          simp only [parseFunctionCommands, hc, hr, List.mem_cons, forall_eq_or_imp,
            isCommandObject_object, hyes, true_and]
          simp [hno]
        | ok cmds =>
          have hall : ∀ e ∈ rest, e.isCommandObject := by
            rw [← ih]
            exact ⟨cmds, hr⟩
          simp only [parseFunctionCommands, hc, hr, List.mem_cons, forall_eq_or_imp,
            isCommandObject_object, hyes, true_and]
          simpa using hall
    | null => simp [parseFunctionCommands, JSONValue.isCommandObject]
    | bool b => simp [parseFunctionCommands, JSONValue.isCommandObject]
    | number x => simp [parseFunctionCommands, JSONValue.isCommandObject]
    | string s => simp [parseFunctionCommands, JSONValue.isCommandObject]
    | array elems => simp [parseFunctionCommands, JSONValue.isCommandObject]

theorem parseFunction_isOk_iff (fmtV : JSONValue → String) (name : String)
    (data : List JSONValue) :
    (∃ f, parseFunction fmtV name data = .ok f) ↔ ∀ e ∈ data, e.isCommandObject := by
  rw [← parseFunctionCommands_isOk_iff fmtV name data]
  cases h : parseFunctionCommands fmtV name data <;> simp [parseFunction, h]

theorem parseScriptEntries_isOk_iff (lib : GoLib) (fmtV : JSONValue → String) :
    ∀ (data : List (String × JSONValue)) (fns : GoMap function) (vs : GoMap String),
      (∃ s, parseScriptEntries lib fmtV data fns vs = .ok s) ↔
        ((∃ g, fns funcInit = some g) ∨ ∃ value, ("init", JSONValue.array value) ∈ data) ∧
        (∀ key value, (key, JSONValue.array value) ∈ data → ∀ e ∈ value, e.isCommandObject) ∧
        (∀ key s, (key, JSONValue.string s) ∈ data → ∃ x, lib.parseFloat s = .ok x) := by
  intro data
  induction data with
  | nil =>
    intro fns vs
    cases h : fns funcInit <;> simp [parseScriptEntries, h]
  | cons kv rest ih =>
    intro fns vs
    obtain ⟨key, val⟩ := kv
    cases val with
    | array value =>
      cases hf : parseFunction fmtV key value with
      | error err =>
        have hno : ¬ ∀ e ∈ value, e.isCommandObject := by
          rw [← parseFunction_isOk_iff fmtV key value]
          simp [hf]
        simp only [parseScriptEntries, hf, List.mem_cons, Prod.mk.injEq, JSONValue.array.injEq]
        constructor
        · rintro ⟨s, hs⟩
          cases hs
        · rintro ⟨_, h2, _⟩
          exact absurd (h2 key value (Or.inl ⟨rfl, rfl⟩)) hno
      | ok f =>
        have hyes : ∀ e ∈ value, e.isCommandObject := by
          rw [← parseFunction_isOk_iff fmtV key value]
          exact ⟨f, hf⟩
        simp only [parseScriptEntries, hf, ih, List.mem_cons, Prod.mk.injEq,
          JSONValue.array.injEq]
        constructor
        · rintro ⟨h1, h2, h3⟩
          refine ⟨?_, ?_, ?_⟩
          · by_cases hk : key = "init"
            · exact Or.inr ⟨value, Or.inl ⟨hk.symm, rfl⟩⟩
            · rcases h1 with ⟨g, hg⟩ | ⟨v, hv⟩
              · have hk2 : ¬ funcInit = key := fun h => hk h.symm
                simp only [GoMap.set, hk2, if_false] at hg
                exact Or.inl ⟨g, hg⟩
              · exact Or.inr ⟨v, Or.inr hv⟩
          · intro k v hkv
            rcases hkv with ⟨_, rfl⟩ | hkv
            · exact hyes
            · exact h2 k v hkv
          · intro k s hks
            rcases hks with ⟨_, hbad⟩ | hks
            · cases hbad
            · exact h3 k s hks
        · rintro ⟨h1, h2, h3⟩
          refine ⟨?_, fun k v hkv => h2 k v (Or.inr hkv), fun k s hks => h3 k s (Or.inr hks)⟩
          by_cases hk : funcInit = key
          · exact Or.inl ⟨f, by simp [GoMap.set, hk]⟩
          · rcases h1 with ⟨g, hg⟩ | ⟨v, hv⟩
            · exact Or.inl ⟨g, by simp [GoMap.set, hk, hg]⟩
            · rcases hv with ⟨hk2, _⟩ | hv
              · exact absurd hk2 hk
              · exact Or.inr ⟨v, hv⟩
    | number x =>
      simp only [parseScriptEntries, ih, List.mem_cons, Prod.mk.injEq, reduceCtorEq, and_false,
        false_or]
    | string str =>
      cases hp : lib.parseFloat str with
      | error err =>
        simp only [parseScriptEntries, hp, List.mem_cons, Prod.mk.injEq, reduceCtorEq,
          and_false, false_or, JSONValue.string.injEq]
        constructor
        · rintro ⟨s, hs⟩
          cases hs
        · rintro ⟨_, _, h3⟩
          obtain ⟨x, hx⟩ := h3 key str (Or.inl ⟨rfl, rfl⟩)
          rw [hp] at hx
          cases hx
      | ok x =>
        simp only [parseScriptEntries, hp, ih, List.mem_cons, Prod.mk.injEq, reduceCtorEq,
          and_false, false_or, JSONValue.string.injEq]
        constructor
        · rintro ⟨h1, h2, h3⟩
          refine ⟨h1, h2, ?_⟩
          intro k s hks
          rcases hks with ⟨_, rfl⟩ | hks
          · exact ⟨x, hp⟩
          · exact h3 k s hks
        · rintro ⟨h1, h2, h3⟩
          exact ⟨h1, h2, fun k s hks => h3 k s (Or.inr hks)⟩
    | null =>
      simp only [parseScriptEntries, ih, List.mem_cons, Prod.mk.injEq, reduceCtorEq, and_false,
        false_or]
    | bool b =>
      simp only [parseScriptEntries, ih, List.mem_cons, Prod.mk.injEq, reduceCtorEq, and_false,
        false_or]
    | object entries =>
      simp only [parseScriptEntries, ih, List.mem_cons, Prod.mk.injEq, reduceCtorEq, and_false,
        false_or]

theorem parseScriptEntries_functions (lib : GoLib) (fmtV : JSONValue → String) (f : String) :
    ∀ (data : List (String × JSONValue)) (fns : GoMap function) (vs : GoMap String) (s : script),
      parseScriptEntries lib fmtV data fns vs = .ok s →
      (∀ value, (f, JSONValue.array value) ∉ data) → s.functions f = fns f := by
  intro data
  induction data with
  | nil =>
    intro fns vs s h _
    cases hi : fns funcInit with
    | none => simp [parseScriptEntries, hi] at h
    | some g =>
      simp only [parseScriptEntries, hi, Except.ok.injEq] at h
      rw [← h]
  | cons kv rest ih =>
    intro fns vs s h hno
    obtain ⟨key, val⟩ := kv
    have hrest : ∀ value, (f, JSONValue.array value) ∉ rest :=
      fun value hm => hno value (List.mem_cons_of_mem _ hm)
    cases val with
    | array value =>
      have hk : ¬ f = key := by
        rintro rfl
        exact hno value (List.mem_cons_self _ _)
      cases hf : parseFunction fmtV key value with
      | error err => simp [parseScriptEntries, hf] at h
      | ok g =>
        simp only [parseScriptEntries, hf] at h
        rw [ih _ _ s h hrest]
        simp [GoMap.set, hk]
    | number x =>
      simp only [parseScriptEntries] at h
      exact ih _ _ s h hrest
    | string str =>
      cases hp : lib.parseFloat str with
      | error err => simp [parseScriptEntries, hp] at h
      | ok x =>
        simp only [parseScriptEntries, hp] at h
        exact ih _ _ s h hrest
    | null =>
      simp only [parseScriptEntries] at h
      exact ih _ _ s h hrest
    | bool b =>
      simp only [parseScriptEntries] at h
      exact ih _ _ s h hrest
    | object entries =>
      simp only [parseScriptEntries] at h
      exact ih _ _ s h hrest

theorem parseScriptEntries_init (lib : GoLib) (fmtV : JSONValue → String) :
    ∀ (data : List (String × JSONValue)) (fns : GoMap function) (vs : GoMap String) (s : script),
      parseScriptEntries lib fmtV data fns vs = .ok s → ∃ g, s.functions funcInit = some g := by
  intro data
  induction data with
  | nil =>
    intro fns vs s h
    cases hi : fns funcInit with
    | none => simp [parseScriptEntries, hi] at h
    | some g =>
      simp only [parseScriptEntries, hi, Except.ok.injEq] at h
      rw [← h]
      exact ⟨g, hi⟩
  | cons kv rest ih =>
    intro fns vs s h
    obtain ⟨key, val⟩ := kv
    cases val with
    | array value =>
      cases hf : parseFunction fmtV key value with
      | error err => simp [parseScriptEntries, hf] at h
      | ok g =>
        simp only [parseScriptEntries, hf] at h
        exact ih _ _ s h
    | number x =>
      simp only [parseScriptEntries] at h
      exact ih _ _ s h
    | string str =>
      cases hp : lib.parseFloat str with
      | error err => simp [parseScriptEntries, hp] at h
      | ok x =>
        simp only [parseScriptEntries, hp] at h
        exact ih _ _ s h
    | null =>
      simp only [parseScriptEntries] at h
      exact ih _ _ s h
    | bool b =>
      simp only [parseScriptEntries] at h
      exact ih _ _ s h
    | object entries =>
      simp only [parseScriptEntries] at h
      exact ih _ _ s h

theorem addBuiltIns_init : addBuiltIns GoMap.empty funcInit = none := rfl

/-! ## C14: when parseScript succeeds -/

/-- C14. On a decoded top-level object, `parseScript` returns a script exactly when (1) `init`
is present with a list value, (2) every entry of every list-valued key is an object with a
`cmd` key, and (3) every string-valued key parses as a float. When it returns an error there is
no script, and the loop body of `Run` returns that error with the environment untouched and
nothing printed. An object without an `init` key, or whose `init` is a number, is rejected. -/
theorem parseScript_succeeds_iff (lib : GoLib) (fmtV : JSONValue → String)
    (data : List (String × JSONValue)) :
    ((∃ s, parseScript lib fmtV data = .ok s) ↔
      (∃ value, ("init", JSONValue.array value) ∈ data) ∧
      (∀ key value, (key, JSONValue.array value) ∈ data → ∀ e ∈ value, e.isCommandObject) ∧
      (∀ key s, (key, JSONValue.string s) ∈ data → ∃ x, lib.parseFloat s = .ok x)) ∧
    (∀ (err : GoError) (fuel : Nat) (ctx : context), parseScript lib fmtV data = .error err →
      runScript lib fmtV fuel data ctx = .returned ⟨some err, ctx, []⟩) ∧
    ((∀ v, ("init", v) ∉ data) → ∃ err, parseScript lib fmtV data = .error err) ∧
    ((∀ v, ("init", v) ∈ data → ∃ x, v = JSONValue.number x) →
      ∃ err, parseScript lib fmtV data = .error err) := by
  have hiff : (∃ s, parseScript lib fmtV data = .ok s) ↔
      (∃ value, ("init", JSONValue.array value) ∈ data) ∧
      (∀ key value, (key, JSONValue.array value) ∈ data → ∀ e ∈ value, e.isCommandObject) ∧
      (∀ key s, (key, JSONValue.string s) ∈ data → ∃ x, lib.parseFloat s = .ok x) := by
    rw [parseScript, parseScriptEntries_isOk_iff]
    simp [addBuiltIns_init]
  have hrej : (¬ ∃ value, ("init", JSONValue.array value) ∈ data) →
      ∃ err, parseScript lib fmtV data = .error err := by
    intro hno
    cases hp : parseScript lib fmtV data with
    | error err => exact ⟨err, rfl⟩
    | ok s => exact absurd (hiff.1 ⟨s, hp⟩).1 hno
  refine ⟨hiff, ?_, ?_, ?_⟩
  · intro err fuel ctx h
    simp [runScript, h]
  · intro hno
    exact hrej (fun ⟨value, hv⟩ => hno _ hv)
  · intro hnum
    refine hrej ?_
    rintro ⟨value, hv⟩
    obtain ⟨x, hx⟩ := hnum _ hv
    cases hx

/-- C14 on `{"init": [{"cmd": "create", ...}]}`, which is accepted, and on `{"init": 5}`, which
is rejected. -/
theorem parseScript_succeeds_iff_witness :
    (∃ s, parseScript testLib testFmtV dataCreateX = .ok s) ∧
    (∃ err, parseScript testLib testFmtV dataInitNumber = .error err) :=
  ⟨(parseScript_succeeds_iff testLib testFmtV dataCreateX).1.2
      ⟨⟨_, List.mem_singleton.2 rfl⟩,
        fun key value h e he => by
          simp only [dataCreateX, List.mem_singleton, Prod.mk.injEq, JSONValue.array.injEq] at h
          obtain ⟨_, rfl⟩ := h
          simp only [List.mem_singleton] at he
          subst he
          exact ⟨.string "create", by simp⟩,
        fun key s h => by
          simp [dataCreateX] at h⟩,
    (parseScript_succeeds_iff testLib testFmtV dataInitNumber).2.2.2
      (fun v h => by
        simp only [dataInitNumber, List.mem_singleton, Prod.mk.injEq] at h
        exact ⟨5, h.2⟩)⟩

/-! ## C13: what script.eval does before init runs -/

theorem merge_functions (s : script) (ctx : context) :
    (s.merge ctx).functions = GoMap.copyInto s.functions ctx.functions := by
  cases ctx <;> rfl

theorem merge_vars (s : script) (ctx : context) :
    (s.merge ctx).vars = GoMap.copyInto s.vars ctx.vars := by
  cases ctx <;> rfl

theorem merge_parent (s : script) (ctx : context) : (s.merge ctx).parent = ctx.parent := by
  cases ctx <;> rfl

theorem getFunc_of_own (ctx : context) (n : String) (f : function)
    (h : ctx.functions n = some f) : ctx.getFunc n true = some f := by
  cases ctx with
  | root fs vs => simpa [getFunc_true_root] using h
  | child p fs vs =>
    have h2 : fs n = some f := h
    simp [getFunc_true_child, h2]

/-- C13. For a script that binds `init` (as every script `parseScript` returns does), on any
shared environment: when `init` is called, the environment's own frame binds every name of
`script.functions` to the script's function and every name of `script.variables` to the
script's value, whatever it bound before, and binds every other name as before; its ancestors
are untouched. The function called is the script's `init`, which is also what the environment
now binds to `init`. -/
theorem script_eval_merges_then_calls_init (lib : GoLib) (fuel : Nat) (s : script)
    (ctx : context) (f : function) (hinit : s.functions funcInit = some f) :
    (∀ k g, s.functions k = some g → (s.merge ctx).functions k = some g) ∧
    (∀ k v, s.vars k = some v → (s.merge ctx).vars k = some v) ∧
    (∀ k, s.functions k = none → (s.merge ctx).functions k = ctx.functions k) ∧
    (∀ k, s.vars k = none → (s.merge ctx).vars k = ctx.vars k) ∧
    (s.merge ctx).parent = ctx.parent ∧
    (s.merge ctx).functions funcInit = some f ∧
    (s.merge ctx).getFunc funcInit true = some f ∧
    script.eval lib fuel s ctx =
      (match function.eval lib fuel f (s.merge ctx) with
        | none => Outcome.outOfFuel
        | some r => Outcome.returned r) := by
  have hf : ∀ k g, s.functions k = some g → (s.merge ctx).functions k = some g := by
    intro k g h
    simp [merge_functions, GoMap.copyInto, h]
  refine ⟨hf, ?_, ?_, ?_, merge_parent s ctx, hf _ _ hinit,
    getFunc_of_own _ _ _ (hf _ _ hinit), ?_⟩
  · intro k v h
    simp [merge_vars, GoMap.copyInto, h]
  · intro k h
    simp [merge_functions, GoMap.copyInto, h]
  · intro k h
    simp [merge_vars, GoMap.copyInto, h]
  · simp only [script.eval, hinit]

/-- C13 at `rootAfterFirst` (where `x` is `3` and `init` does nothing) and `scriptSecond`: the
second script's `x` and `init` replace the first's, `create` stays, and run through `Run` the
second `init` reads the second script's `x`. -/
theorem script_eval_merges_then_calls_init_witness :
    (scriptSecond.merge rootAfterFirst).vars "x" = some "4" ∧
    (scriptSecond.merge rootAfterFirst).getFunc funcInit true =
      some (.customFunc ⟨"init", [⟨"create", [.valueArg ⟨"id", "y"⟩, .refArg ⟨"value", "x"⟩]⟩]⟩) ∧
    (Run testLib testFmtV 1 [("first.fsl", dataFirst), ("second.fsl", dataSecond)]).result?.map
      (fun r => (r.err, r.ctx.getVar "x" true, r.ctx.getVar "y" true, r.out)) =
      some (none, some "4", some "4", []) :=
  have h := script_eval_merges_then_calls_init testLib 1 scriptSecond rootAfterFirst _ rfl
  ⟨h.2.1 "x" "4" rfl, h.2.2.2.2.2.2.1, by decide⟩

/-! ## C12: a registered function and a later script -/

theorem addBuiltIns_of_not_builtIn (fns : GoMap function) (f : String)
    (h : f ∉ builtInNames) : addBuiltIns fns f = fns f := by
  simp only [builtInNames, funcCreate, funcDelete, funcUpdate, funcPrint, List.mem_cons,
    List.mem_singleton, List.mem_nil_iff, or_false, not_or] at h
  obtain ⟨h1, h2, h3, h4, h5, h6, h7, h8⟩ := h
  simp [addBuiltIns, GoMap.set, funcCreate, funcDelete, funcUpdate, funcPrint, h1, h2, h3, h4,
    h5, h6, h7, h8]

theorem functions_of_funcMaps (a b : context) (h : a.funcMaps = b.funcMaps) :
    a.functions = b.functions := by
  cases a <;> cases b <;>
    simp only [funcMaps_root, funcMaps_child, List.cons.injEq] at h <;> exact h.1

/-- C12 as stated fails for the names of the built-ins: in a root environment where `create`
names a user-defined function, the script parsed from `{"init": []}` (which declares no
function `create`) is evaluated without error, and afterwards `create` names the built-in. -/
theorem builtIn_name_rebound_by_later_script :
    rootCustomCreate.functions "create" = some (.customFunc ⟨"create", []⟩) ∧
    (∀ value, ("create", JSONValue.array value) ∉ dataInitEmpty) ∧
    ∃ s r, parseScript testLib testFmtV dataInitEmpty = .ok s ∧
      script.eval testLib 1 s rootCustomCreate = .returned r ∧
      r.err = none ∧
      r.ctx.functions "create" = some (.createFunc ⟨"create"⟩) :=
  ⟨rfl, fun value h => by simp [dataInitEmpty] at h, _, _, rfl, rfl, rfl, rfl⟩

/-- C12, amended. For a root environment that binds `f` to `F`, where `f` is not the name of a
built-in, and a script that `parseScript` returns for an input with no list-valued key `f`:
whenever evaluating the script against the environment returns (with or without an error),
the environment is still a root that binds `f` to `F`. -/
theorem registered_function_survives_script (lib : GoLib) (fmtV : JSONValue → String)
    (fuel : Nat) (data : List (String × JSONValue)) (s : script) (fs : GoMap function)
    (vs : GoMap String) (f : String) (F : function) (r : Result)
    (hparse : parseScript lib fmtV data = .ok s) (hF : fs f = some F)
    (hdecl : ∀ value, (f, JSONValue.array value) ∉ data) (hname : f ∉ builtInNames)
    (heval : script.eval lib fuel s (.root fs vs) = .returned r) :
    r.ctx.functions f = some F ∧ r.ctx.getFunc f true = some F ∧ r.ctx.parent = none := by
  have hsf : s.functions f = none := by
    rw [parseScriptEntries_functions lib fmtV f data _ _ s hparse hdecl,
      addBuiltIns_of_not_builtIn _ _ hname]
    rfl
  obtain ⟨g, hg⟩ := parseScriptEntries_init lib fmtV data _ _ s hparse
  simp only [script.eval, hg] at heval
  cases hr : function.eval lib fuel g (s.merge (.root fs vs)) with
  | none => simp [hr] at heval
  | some r2 =>
    simp only [hr, Outcome.returned.injEq] at heval
    subst heval
    have hm := funcMaps_function_eval lib fuel g _ r2 hr
    have hfun : r2.ctx.functions f = some F := by
      rw [functions_of_funcMaps _ _ hm, merge_functions]
      simp [GoMap.copyInto, hsf, context.functions, hF]
    refine ⟨hfun, getFunc_of_own _ _ _ hfun, ?_⟩
    cases hc : r2.ctx with
    | root fs2 vs2 => rfl
    | child p fs2 vs2 =>
      rw [hc] at hm
      simp only [script.merge, funcMaps_root, funcMaps_child, List.cons.injEq] at hm
      exact absurd hm.2 (funcMaps_ne_nil p)

/-- C12 amended, at `rootHelper` and the script of `{"init": []}`: the function `helper`, which
the script does not declare, is still bound afterwards. -/
theorem registered_function_survives_script_witness :
    ∃ r : Result, script.eval testLib 1 scriptInitEmpty rootHelper = .returned r ∧
      r.ctx.functions "helper" = some (.customFunc ⟨"helper", []⟩) :=
  ⟨⟨none, scriptInitEmpty.merge rootHelper, []⟩, rfl,
    (registered_function_survives_script testLib testFmtV 1 dataInitEmpty scriptInitEmpty
      (GoMap.set (addBuiltIns GoMap.empty) "helper" (.customFunc ⟨"helper", []⟩)) GoMap.empty
      "helper" (.customFunc ⟨"helper", []⟩) ⟨none, scriptInitEmpty.merge rootHelper, []⟩ rfl rfl
      (fun value hv => by simp [dataInitEmpty] at hv) (by decide) rfl).1⟩

/-! ## C18: a script that never returns -/

theorem initCallsInit_outOfFuel (lib : GoLib) :
    ∀ (fuel : Nat) (ctx : context), ctx.getFunc "init" true = some initCallsInit →
      function.eval lib fuel initCallsInit ctx = none := by
  intro fuel
  induction fuel with
  | zero => intro ctx _; rfl
  | succ k ih =>
    intro ctx h
    have hnew : (newContext ctx).getFunc "init" true = some initCallsInit := by
      rw [newContext, getFunc_true_child]
      simpa [GoMap.empty] using h
    simp only [initCallsInit, function.eval, customFunc.evalWith, command.evalWith] at ih ⊢
    simp only [h, initCallsInit, List.foldl_nil]
    rw [ih (newContext ctx) hnew]

theorem parse_dataInitCallsInit (lib : GoLib) (fmtV : JSONValue → String)
    (hfmt : fmtV (.string "init") = "init") :
    parseScript lib fmtV dataInitCallsInit = .ok scriptInitCallsInit := by
  have hp : strings.HasPrefix "init" "#" = false := by decide
  simp [parseScript, dataInitCallsInit, parseScriptEntries, parseFunction,
    parseFunctionCommands, parseCommand, parseCommandArgs, List.lookup, hfmt, hp,
    scriptInitCallsInit, initCallsInit, GoMap.set, funcInit]

/-- C18. The script `{"init": [{"cmd": "init"}]}` (a string printing as itself under `%v`) is
accepted by `parseScript`, and evaluating it against an empty root environment returns neither
success nor an error at any depth: for every amount of fuel the evaluator runs out of it, in
`script.eval` and so in `Run`. Nothing guards against unbounded recursion. -/
theorem self_recursive_script_never_returns (lib : GoLib) (fmtV : JSONValue → String)
    (hfmt : fmtV (.string "init") = "init") (fuel : Nat) :
    parseScript lib fmtV dataInitCallsInit = .ok scriptInitCallsInit ∧
    script.eval lib fuel scriptInitCallsInit newRootContext = .outOfFuel ∧
    Run lib fmtV fuel [("loop.fsl", dataInitCallsInit)] = .outOfFuel := by
  have hparse := parse_dataInitCallsInit lib fmtV hfmt
  have hev : script.eval lib fuel scriptInitCallsInit newRootContext = .outOfFuel := by
    have hi : scriptInitCallsInit.functions funcInit = some initCallsInit := rfl
    have hg : (scriptInitCallsInit.merge newRootContext).getFunc "init" true =
        some initCallsInit := rfl
    simp only [script.eval, hi, initCallsInit_outOfFuel lib fuel _ hg]
  refine ⟨hparse, hev, ?_⟩
  simp only [Run, runScripts, runScript, hparse, hev]

/-- C18 with the test library, at fuel 1000. -/
theorem self_recursive_script_never_returns_witness :
    Run testLib testFmtV 1000 [("loop.fsl", dataInitCallsInit)] = .outOfFuel :=
  (self_recursive_script_never_returns testLib testFmtV rfl 1000).2.2

/-! ## C15: the arithmetic built-ins -/

/-- C15. For a binary operator (`add`, `sub`, `mul`, `div` are the four that `addBuiltIns`
registers, with `+`, `-`, `*`, `/`) evaluated in a frame that binds `id`, `operand1` and
`operand2`, float parsing and formatting being the given `lib`: when `operand1` does not parse,
the result is the conversion error for `operand1` (whatever `operand2` is) and the chain is
unchanged; when `operand1` parses and `operand2` does not, it is the conversion error for
`operand2` and the chain is unchanged; otherwise no error is returned, nothing is printed and
the chain is the one `setVar` leaves for the value of `id` and the formatted result of the
operator on the two parsed operands. -/
theorem binOp_eval_converts_then_assigns (lib : GoLib) (fuel : Nat) (f : binOp) (ctx : context)
    (id op1 op2 : String) (hid : ctx.vars attrID = some id)
    (h1 : ctx.vars attrOp1 = some op1) (h2 : ctx.vars attrOp2 = some op2) :
    (∀ err, lib.parseFloat op1 = .error err →
      function.eval lib fuel (.binOp f) ctx =
        some ⟨some (.wrapf "cannot convert %q = %q to float: %v" [attrOp1, op1] err), ctx, []⟩) ∧
    (∀ left err, lib.parseFloat op1 = .ok left → lib.parseFloat op2 = .error err →
      function.eval lib fuel (.binOp f) ctx =
        some ⟨some (.wrapf "cannot convert %q = %q to float: %v" [attrOp2, op2] err), ctx, []⟩) ∧
    (∀ left right, lib.parseFloat op1 = .ok left → lib.parseFloat op2 = .ok right →
      function.eval lib fuel (.binOp f) ctx =
        some ⟨none, ctx.setVar id (lib.sprintf_f (f.op left right)), []⟩) ∧
    addBuiltIns GoMap.empty "add" = some (.binOp ⟨"add", fun a b => a + b⟩) ∧
    addBuiltIns GoMap.empty "sub" = some (.binOp ⟨"sub", fun a b => a - b⟩) ∧
    addBuiltIns GoMap.empty "mul" = some (.binOp ⟨"mul", fun a b => a * b⟩) ∧
    addBuiltIns GoMap.empty "div" = some (.binOp ⟨"div", fun a b => a / b⟩) := by
  refine ⟨?_, ?_, ?_, rfl, rfl, rfl, rfl⟩
  · intro err he
    rw [eval_binOp]
    simp [binOp.eval, getVar_false, hid, h1, h2, he]
  · intro left err hl he
    rw [eval_binOp]
    simp [binOp.eval, getVar_false, hid, h1, h2, hl, he]
  · intro left right hl hr
    rw [eval_binOp]
    simp [binOp.eval, getVar_false, hid, h1, h2, hl, hr]

/-- C15 with the test library: `add` on `3` and `4` binds `y` in the root; on `3` and `four`
it reports `operand2`. -/
theorem binOp_eval_converts_then_assigns_witness :
    function.eval testLib 0 (.binOp ⟨"add", fun a b => a + b⟩) frameAdd34 =
      some ⟨none, frameAdd34.setVar "y" (testLib.sprintf_f (3 + 4)), []⟩ ∧
    function.eval testLib 0 (.binOp ⟨"add", fun a b => a + b⟩) frameAdd3Bad =
      some ⟨some (.wrapf "cannot convert %q = %q to float: %v" ["operand2", "four"]
        (.errorf "strconv.ParseFloat: parsing %q: invalid syntax" ["four"])), frameAdd3Bad, []⟩ :=
  ⟨(binOp_eval_converts_then_assigns testLib 0 ⟨"add", fun a b => a + b⟩ frameAdd34
      "y" "3" "4" rfl rfl rfl).2.2.1 3 4 rfl rfl,
    (binOp_eval_converts_then_assigns testLib 0 ⟨"add", fun a b => a + b⟩ frameAdd3Bad
      "y" "3" "four" rfl rfl rfl).2.1 3 _ rfl rfl⟩

/-! ## C16: the order of a command's arguments -/

theorem find?_name_of_mem (k : String) :
    ∀ (l : List argument) (a : argument), (l.map argument.name).Nodup → a ∈ l → a.name = k →
      l.find? (fun arg => decide (arg.name = k)) = some a := by
  intro l
  induction l with
  | nil => intro a _ h; simp at h
  | cons x xs ih =>
    intro a hnd ha hk
    simp only [List.map_cons, List.nodup_cons, List.mem_map, not_exists, not_and] at hnd
    by_cases hx : x.name = k
    · rcases List.mem_cons.1 ha with rfl | hmem
      · simp [List.find?, hx]
      · exact absurd (hk.trans hx.symm) (hnd.1 a hmem)
    · have hax : a ∈ xs := by
        rcases List.mem_cons.1 ha with rfl | hmem
        · exact absurd hk hx
        · exact hmem
      simp only [List.find?, hx, decide_False]
      exact ih a hnd.2 hax hk

theorem argBindings_perm (ctx : context) (l1 l2 : List argument) (hp : l1.Perm l2)
    (hnd : (l1.map argument.name).Nodup) : argBindings l1 ctx = argBindings l2 ctx := by
  funext k
  have hnd1 : (l1.reverse.map argument.name).Nodup :=
    ((List.reverse_perm l1).map argument.name).nodup_iff.2 hnd
  have hnd2 : (l2.reverse.map argument.name).Nodup :=
    (((List.reverse_perm l2).trans hp.symm).map argument.name).nodup_iff.2 hnd
  unfold argBindings
  by_cases hex : ∃ a ∈ l1, a.name = k
  · obtain ⟨a, ha, hk⟩ := hex
    rw [find?_name_of_mem k l1.reverse a hnd1 (List.mem_reverse.2 ha) hk,
      find?_name_of_mem k l2.reverse a hnd2 (List.mem_reverse.2 (hp.mem_iff.1 ha)) hk]
  · have hn1 : l1.reverse.find? (fun arg => decide (arg.name = k)) = none := by
      rw [List.find?_eq_none]
      intro x hx
      simpa using fun h => hex ⟨x, List.mem_reverse.1 hx, h⟩
    have hn2 : l2.reverse.find? (fun arg => decide (arg.name = k)) = none := by
      rw [List.find?_eq_none]
      intro x hx
      simpa using fun h => hex ⟨x, hp.mem_iff.2 (List.mem_reverse.1 hx), h⟩
    rw [hn1, hn2]

/-- C16. Two commands with the same target whose argument lists are permutations of each other
and carry pairwise distinct names evaluate alike against any caller: the same outcome (out of
fuel, or the same error or `nil`), the same chain in every frame and the same output. -/
theorem command_eval_argument_order (lib : GoLib) (fuel : Nat) (c1 c2 : command) (ctx : context)
    (hcmd : c1.cmd = c2.cmd) (hperm : c1.arguments.Perm c2.arguments)
    (hnames : (c1.arguments.map argument.name).Nodup) :
    command.eval lib fuel c1 ctx = command.eval lib fuel c2 ctx := by
  simp only [command.eval, command.evalWith, newCtx_eq, hcmd,
    argBindings_perm ctx _ _ hperm hnames]

/-- C16 on `create id=y value=#x` and `create value=#x id=y` at `chainX`. -/
theorem command_eval_argument_order_witness :
    command.eval testLib 0 ⟨"create", [.valueArg ⟨"id", "y"⟩, .refArg ⟨"value", "x"⟩]⟩ chainX =
      command.eval testLib 0 ⟨"create", [.refArg ⟨"value", "x"⟩, .valueArg ⟨"id", "y"⟩]⟩ chainX :=
  command_eval_argument_order testLib 0 _ _ chainX rfl (List.Perm.swap _ _ _) (by decide)

/-! ## C17: what deleteVar removes -/

theorem binds_deleteVar (n : String) (fr : Frame) : (Frame.deleteVar n fr).binds n = false := by
  simp [Frame.binds, Frame.deleteVar, GoMap.delete]

theorem find?_modify_deleteVar (n : String) :
    ∀ (l : List Frame) (i : Nat) (fr : Frame), l[i]? = some fr →
      (∀ (j : Nat) (fj : Frame), j < i → l[j]? = some fj → fj.binds n = false) →
      (l.modify (Frame.deleteVar n) i).find? (Frame.binds n) =
        (l.drop (i + 1)).find? (Frame.binds n) := by
  intro l
  induction l with
  | nil => intro i fr h; simp at h
  | cons x xs ih =>
    intro i fr h hmin
    cases i with
    | zero => simp [List.find?, binds_deleteVar]
    | succ k =>
      have hx := hmin 0 x (Nat.succ_pos k) (by simp)
      simp only [List.getElem?_cons_succ] at h
      simp only [List.modify_succ_cons, List.find?, hx, List.drop_succ_cons]
      exact ih k fr h (fun j fj hj hfj =>
        hmin (j + 1) fj (Nat.succ_lt_succ hj) (by simpa using hfj))

theorem deleteVar_frames (n : String) :
    ∀ (ctx : context) (i : Nat) (fr : Frame), ctx.frames[i]? = some fr → fr.binds n = true →
      (∀ (j : Nat) (fj : Frame), j < i → ctx.frames[j]? = some fj → fj.binds n = false) →
      (ctx.deleteVar n).1.frames = ctx.frames.modify (Frame.deleteVar n) i := by
  intro ctx
  induction ctx with
  | root fs vs =>
    intro i fr hi hb _
    cases i with
    | zero =>
      simp only [context.frames, List.getElem?_cons_zero, Option.some.injEq] at hi
      subst hi
      rw [binds_true_iff] at hb
      obtain ⟨w, hw⟩ := hb
      simp only at hw
      simp [context.deleteVar, context.frames, Frame.deleteVar, hw]
    | succ k => simp [context.frames] at hi
  | child p fs vs ih =>
    intro i fr hi hb hmin
    cases i with
    | zero =>
      simp only [context.frames, List.getElem?_cons_zero, Option.some.injEq] at hi
      subst hi
      rw [binds_true_iff] at hb
      obtain ⟨w, hw⟩ := hb
      simp only at hw
      simp [context.deleteVar, context.frames, Frame.deleteVar, hw]
    | succ k =>
      have h0 := hmin 0 ⟨fs, vs⟩ (Nat.succ_pos k) (by simp [context.frames])
      rw [binds_false_iff] at h0
      simp only at h0
      simp only [context.frames, List.getElem?_cons_succ] at hi
      have hk := ih k fr hi hb (fun j fj hj hfj =>
        hmin (j + 1) fj (Nat.succ_lt_succ hj) (by simpa [context.frames] using hfj))
      simp [context.deleteVar, context.frames, h0, hk]

/-- C17. When frame `i` is the nearest frame that binds `n`, `deleteVar n` returns `true` and
leaves the chain with frame `i` alone replaced by itself without `n`: every other frame and
every other name is as before. Afterwards `getVar n true` from the same frame is the binding
of the nearest frame beyond `i` that binds `n`, and is not-found exactly when no frame beyond
`i` binds it. -/
theorem deleteVar_removes_nearest (ctx : context) (n : String) (i : Nat) (fr : Frame)
    (hi : ctx.frames[i]? = some fr) (hb : fr.binds n = true)
    (hmin : ∀ (j : Nat) (fj : Frame), j < i → ctx.frames[j]? = some fj →
      fj.binds n = false) :
    (ctx.deleteVar n).2 = true ∧
    (ctx.deleteVar n).1.frames = ctx.frames.modify (Frame.deleteVar n) i ∧
    (∀ m, m ≠ n → ∀ fr2, (Frame.deleteVar n fr2).vars m = fr2.vars m) ∧
    (ctx.deleteVar n).1.getVar n true =
      ((ctx.frames.drop (i + 1)).find? (Frame.binds n)).bind (fun fr2 => fr2.vars n) ∧
    ((ctx.deleteVar n).1.getVar n true = none ↔
      ∀ fr2 ∈ ctx.frames.drop (i + 1), fr2.binds n = false) := by
  have hfr := deleteVar_frames n ctx i fr hi hb hmin
  have hget : (ctx.deleteVar n).1.getVar n true =
      ((ctx.frames.drop (i + 1)).find? (Frame.binds n)).bind (fun fr2 => fr2.vars n) := by
    rw [getVar_eq_find, hfr, find?_modify_deleteVar n ctx.frames i fr hi hmin]
  refine ⟨?_, hfr, ?_, hget, ?_⟩
  · rw [deleteVar_snd, getVar_eq_find, find?_of_first (Frame.binds n) ctx.frames i fr hi hb hmin]
    rw [binds_true_iff] at hb
    obtain ⟨w, hw⟩ := hb
    simp [hw]
  · intro m hm fr2
    simp [Frame.deleteVar, GoMap.delete, hm]
  · rw [hget]
    constructor
    · intro h fr2 hfr2
      cases hf : (ctx.frames.drop (i + 1)).find? (Frame.binds n) with
      | none =>
        rw [List.find?_eq_none] at hf
        simpa using hf fr2 hfr2
      | some g =>
        have hg := List.find?_some hf
        rw [hf] at h
        rw [binds_true_iff] at hg
        obtain ⟨w, hw⟩ := hg
        simp [hw] at h
    · intro h
      have : (ctx.frames.drop (i + 1)).find? (Frame.binds n) = none := by
        rw [List.find?_eq_none]
        intro x hx
        simp [h x hx]
      rw [this]
      rfl

/-- C17 at `chainXX` (the middle frame binds `x` to `2`, the root to `1`): deleting `x` removes
the middle binding and uncovers the root's. -/
theorem deleteVar_removes_nearest_witness :
    (chainXX.deleteVar "x").2 = true ∧
    (chainXX.deleteVar "x").1.frames = chainXX.frames.modify (Frame.deleteVar "x") 1 ∧
    (chainXX.deleteVar "x").1.getVar "x" true = some "1" :=
  have h := deleteVar_removes_nearest chainXX "x" 1
    ⟨GoMap.empty, GoMap.set GoMap.empty "x" "2"⟩ rfl (by decide)
    (fun j fj hj hfj => by
      obtain rfl : j = 0 := by omega
      simp only [chainXX, context.frames, List.getElem?_cons_zero, Option.some.injEq] at hfj
      subst hfj
      decide)
  ⟨h.1, h.2.1, h.2.2.2.1.trans (by decide)⟩

/-! ## C20: reading back after setVar and updateVar -/

theorem getVar_setVar_other (ctx : context) (n v m : String) (hm : m ≠ n) :
    (ctx.setVar n v).getVar m true = ctx.getVar m true := by
  induction ctx with
  | root fs vs => simp [context.setVar, getVar_true_root, GoMap.set, hm]
  | child p fs vs ih =>
    cases h : vs n with
    | none => simp [context.setVar, getVar_true_child, h, ih]
    | some w => simp [context.setVar, getVar_true_child, h, GoMap.set, hm]

theorem getVar_updateVar_same (ctx : context) (n v : String)
    (h : (ctx.updateVar n v).2 = true) : (ctx.updateVar n v).1.getVar n true = some v := by
  induction ctx with
  | root fs vs =>
    cases hv : vs n with
    | none => simp [context.updateVar, hv] at h
    | some w => simp [context.updateVar, hv, getVar_true_root, GoMap.set]
  | child p fs vs ih =>
    cases hv : vs n with
    | none =>
      simp only [context.updateVar, hv] at h
      simp [context.updateVar, hv, getVar_true_child, ih h]
    | some w => simp [context.updateVar, hv, getVar_true_child, GoMap.set]

theorem getVar_updateVar_other (ctx : context) (n v m : String) (hm : m ≠ n) :
    (ctx.updateVar n v).1.getVar m true = ctx.getVar m true := by
  induction ctx with
  | root fs vs =>
    cases hv : vs n <;> simp [context.updateVar, hv, getVar_true_root, GoMap.set, hm]
  | child p fs vs ih =>
    cases hv : vs n <;> simp [context.updateVar, hv, getVar_true_child, GoMap.set, hm, ih]

theorem countP_setVar (ctx : context) (n v : String) :
    (ctx.setVar n v).frames.countP (Frame.binds n) =
      if ctx.frames.any (Frame.binds n) then ctx.frames.countP (Frame.binds n) else 1 := by
  induction ctx with
  | root fs vs =>
    cases h : vs n <;>
      simp [context.setVar, context.frames, Frame.binds, GoMap.set, List.countP_cons, h]
  | child p fs vs ih =>
    cases h : vs n with
    | none =>
      simp only [context.setVar, h, context.frames, List.countP_cons, ih, List.any_cons,
        Frame.binds, Option.isSome_none, Bool.false_or]
      split <;> simp
    | some w =>
      simp [context.setVar, context.frames, Frame.binds, GoMap.set, List.countP_cons, h]

/-- C20. After `setVar n v`, `getVar n true` from the same starting frame is `v`, and the
chain-searched lookup of every other name is what it was. The number of frames that bind `n`
is unchanged when some frame bound `n`, and is one when none did. After an `updateVar n v`
that returned `true`, `getVar n true` is `v` as well (and other names read as before). -/
theorem setVar_updateVar_read_back (ctx : context) (n v : String) :
    (ctx.setVar n v).getVar n true = some v ∧
    (∀ m, m ≠ n → (ctx.setVar n v).getVar m true = ctx.getVar m true) ∧
    ((∃ fr ∈ ctx.frames, fr.binds n = true) →
      (ctx.setVar n v).frames.countP (Frame.binds n) = ctx.frames.countP (Frame.binds n)) ∧
    ((∀ fr ∈ ctx.frames, fr.binds n = false) →
      (ctx.setVar n v).frames.countP (Frame.binds n) = 1) ∧
    ((ctx.updateVar n v).2 = true → (ctx.updateVar n v).1.getVar n true = some v) ∧
    (∀ m, m ≠ n → (ctx.updateVar n v).1.getVar m true = ctx.getVar m true) := by
  refine ⟨getVar_setVar_same ctx n v, fun m hm => getVar_setVar_other ctx n v m hm, ?_, ?_,
    getVar_updateVar_same ctx n v, fun m hm => getVar_updateVar_other ctx n v m hm⟩
  · rintro ⟨fr, hfr, hb⟩
    have hany : ctx.frames.any (Frame.binds n) = true := List.any_eq_true.2 ⟨fr, hfr, hb⟩
    rw [countP_setVar, if_pos hany]
  · intro hall
    have hany : ¬ ctx.frames.any (Frame.binds n) = true := by
      rw [List.any_eq_true]
      rintro ⟨fr, hfr, hb⟩
      rw [hall fr hfr] at hb
      cases hb
    rw [countP_setVar, if_neg hany]

/-- C20 at `chainXX`, where two frames bind `x` and none binds `y`. -/
theorem setVar_updateVar_read_back_witness :
    (chainXX.setVar "x" "5").getVar "x" true = some "5" ∧
    (chainXX.setVar "x" "5").frames.countP (Frame.binds "x") = 2 ∧
    (chainXX.setVar "y" "5").frames.countP (Frame.binds "y") = 1 ∧
    (chainXX.updateVar "x" "5").1.getVar "x" true = some "5" :=
  have h := setVar_updateVar_read_back chainXX "x" "5"
  ⟨h.1,
    (h.2.2.1 ⟨⟨GoMap.empty, GoMap.set GoMap.empty "x" "2"⟩, by simp [chainXX, context.frames],
      by decide⟩).trans (by decide),
    (setVar_updateVar_read_back chainXX "y" "5").2.2.2.1 (fun fr hfr => by
      simp only [chainXX, context.frames, List.mem_cons, List.mem_singleton, List.mem_nil_iff,
        or_false] at hfr
      rcases hfr with rfl | rfl | rfl <;> decide),
    h.2.2.2.2.1 (by decide)⟩

/-! ## C19: function bindings during evaluation -/

theorem getFunc_congr (n : String) :
    ∀ (a b : context), a.funcMaps = b.funcMaps → a.getFunc n true = b.getFunc n true := by
  intro a
  induction a with
  | root fs vs =>
    intro b h
    cases b with
    | root fs2 vs2 =>
      simp only [funcMaps_root, List.cons.injEq, and_true] at h
      simp [getFunc_true_root, h]
    | child q fs2 vs2 =>
      simp only [funcMaps_root, funcMaps_child, List.cons.injEq] at h
      exact absurd h.2.symm (funcMaps_ne_nil q)
  | child p fs vs ih =>
    intro b h
    cases b with
    | root fs2 vs2 =>
      simp only [funcMaps_root, funcMaps_child, List.cons.injEq] at h
      exact absurd h.2 (funcMaps_ne_nil p)
    | child q fs2 vs2 =>
      simp only [funcMaps_child, List.cons.injEq] at h
      rw [getFunc_true_child, getFunc_true_child, h.1, ih q h.2]

theorem funcMaps_RunsOk (ev : command → context → Option Result)
    (hev : ∀ (c : command) (ctx : context) (r : Result),
      ev c ctx = some r → r.ctx.funcMaps = ctx.funcMaps) :
    ∀ (cmds : List command) (ctx ctx2 : context) (out : List String),
      RunsOk ev cmds ctx ctx2 out → ctx2.funcMaps = ctx.funcMaps := by
  intro cmds ctx ctx2 out h
  induction h with
  | nil ctx => rfl
  | cons c rest ctx ctx1 ctx2 out1 out2 hc _ ih =>
    exact ih.trans (hev c ctx _ hc)

theorem getFunc_of_invoked (lib : GoLib) (F : GoMap function) :
    ∀ (fuel : Nat) (f : function) (ctx : context) (g : function) (ctx2 : context),
      Invoked lib fuel f ctx g ctx2 → (∀ name, ctx.getFunc name true = F name) →
      ∀ name, ctx2.getFunc name true = F name := by
  intro fuel f ctx g ctx2 h
  induction h with
  | self fuel f ctx => exact fun hF => hF
  | call fuel f ctx pre k post ctx1 out1 h g ctx2 _ hpre _ _ ih =>
    intro hF
    apply ih
    intro name
    have hm := funcMaps_RunsOk _ (funcMaps_command_eval lib fuel) pre ctx ctx1 out1 hpre
    rw [getFunc_true_child]
    simpa [GoMap.empty, getFunc_congr name ctx1 ctx hm] using hF name

/-- C19. Evaluating a function or a command, whenever it returns, leaves the function map of
every frame of the chain as it was. The frame command evaluation builds for its callee has
an empty function map. Hence, starting from a root environment, in every call made in the
course of the evaluation the chain-searched `getFunc` of any name returns exactly what the
root frame binds. Only the merge step of `script.eval` writes to a function map. -/
theorem evaluation_preserves_function_maps (lib : GoLib) (fuel : Nat) :
    (∀ (f : function) (ctx : context) (r : Result),
      function.eval lib fuel f ctx = some r → r.ctx.funcMaps = ctx.funcMaps) ∧
    (∀ (c : command) (ctx : context) (r : Result),
      command.eval lib fuel c ctx = some r → r.ctx.funcMaps = ctx.funcMaps) ∧
    (∀ (call : function → context → Option Result) (c : command) (ctx : context)
      (f : function), ctx.getFunc c.cmd true = some f →
      ∃ newCtx : context, newCtx.parent = some ctx ∧ newCtx.functions = GoMap.empty ∧
        command.evalWith call c ctx =
          (call f newCtx).map (fun r => ⟨r.err, r.ctx.caller, r.out⟩)) ∧
    (∀ (f g : function) (fs : GoMap function) (vs : GoMap String) (ctx2 : context),
      Invoked lib fuel f (.root fs vs) g ctx2 → ∀ name, ctx2.getFunc name true = fs name) := by
  refine ⟨funcMaps_function_eval lib fuel, funcMaps_command_eval lib fuel, ?_, ?_⟩
  · intro call c ctx f hf
    refine ⟨context.child ctx GoMap.empty (argBindings c.arguments ctx), rfl, rfl, ?_⟩
    simp only [command.evalWith, hf, newCtx_eq]
    cases call f (context.child ctx GoMap.empty (argBindings c.arguments ctx)) <;> rfl
  · intro f g fs vs ctx2 h
    exact getFunc_of_invoked lib fs fuel f _ g ctx2 h (fun name => getFunc_true_root fs vs name)

/-- C19 at `rootHelperCreate`: `init` runs `create x` and then calls `helper`, which calls
`create` two frames above the root (`createFrame`); the lookup of `create` there finds the
root's built-in, and the root's function map is the same after the evaluation. -/
theorem evaluation_preserves_function_maps_witness :
    function.eval testLib 2 initCallsHelper rootHelperCreate =
      some ⟨none, (rootHelperCreate.setVar "x" "1").setVar "y" "2", []⟩ ∧
    ((rootHelperCreate.setVar "x" "1").setVar "y" "2").funcMaps = rootHelperCreate.funcMaps ∧
    createFrame.getFunc "create" true = some (.createFunc ⟨"create"⟩) :=
  have h := evaluation_preserves_function_maps testLib 2
  ⟨rfl,
    h.1 initCallsHelper rootHelperCreate
      ⟨none, (rootHelperCreate.setVar "x" "1").setVar "y" "2", []⟩ rfl,
    h.2.2.2 initCallsHelper (.createFunc ⟨"create"⟩)
      (GoMap.set (addBuiltIns GoMap.empty) "helper" helperCreates) GoMap.empty createFrame
      (Invoked.call 1 ⟨"init", [createCmd "x" "1", ⟨"helper", []⟩]⟩ rootHelperCreate
        [createCmd "x" "1"] ⟨"helper", []⟩ [] (rootHelperCreate.setVar "x" "1") []
        helperCreates (.createFunc ⟨"create"⟩) createFrame rfl
        (RunsOk.cons _ _ _ _ _ [] [] rfl (RunsOk.nil _)) rfl
        (Invoked.call 0 ⟨"helper", [createCmd "y" "2"]⟩ helperFrame [] (createCmd "y" "2") []
          helperFrame [] (.createFunc ⟨"create"⟩) (.createFunc ⟨"create"⟩) createFrame rfl
          (RunsOk.nil _) rfl (Invoked.self 0 _ _)))
      "create"⟩

end engine
